import Mathlib

/-!
The `/proxy` handler of `functions/proxy.js`.

A shallow embedding of the rule table, the rule lookup, the special-case
routing (no-fix, AMP unwrap, sign-in stripping) and the response rewriting
(cookie policy, script stripping, header override, truncation) of the
Express handler `app.post('/proxy', ...)`.

JavaScript strings are embedded as Lean `String`s, one `Char` per character; where the
handler counts UTF-16 code units (`substring`), the string is taken as its list of code
units (`utf16`).
The platform pieces the handler calls (`url.parse`, `axios.get`,
`Math.random`) are fields of an environment record; the string built-ins
(`includes`, `split`, `decodeURIComponent`, `replace`, `substring`) and the
regular expressions are embedded as executable functions.
-/

namespace WebProxy

/-! ## String built-ins -/

/-- Whether `p` is a prefix of `s` (used for `includes`, `split` and the literal parts of
regular expressions). -/
def isPrefixB : List Char → List Char → Bool
  | [], _ => true
  | _ :: _, [] => false
  | a :: p, b :: s => a == b && isPrefixB p s

/-- List form of `String.prototype.includes`: `t` occurs in `s` as a contiguous run. -/
def includesL : List Char → List Char → Bool
  | [], t => isPrefixB t []
  | c :: cs, t => isPrefixB t (c :: cs) || includesL cs t

/-- JavaScript `s.includes(t)`. -/
def includes (s t : String) : Bool := includesL s.data t.data

/-- Worker of `split`: `skip` characters of a separator just matched are still to be dropped,
`cur` is the current piece in reverse. -/
def splitGo (sep : List Char) : Nat → List Char → List Char → List (List Char)
  | _, cur, [] => [cur.reverse]
  | k + 1, cur, _ :: cs => splitGo sep k cur cs
  | 0, cur, c :: cs =>
    if isPrefixB sep (c :: cs) then cur.reverse :: splitGo sep (sep.length - 1) [] cs
    else splitGo sep 0 (c :: cur) cs

/-- JavaScript `s.split(sep)` for a non-empty separator: the pieces between the
non-overlapping occurrences of `sep`, scanning from the left. -/
def split (s sep : String) : List String :=
  (splitGo sep.data 0 [] s.data).map String.mk

/-- Value of a hexadecimal digit, `none` for any other character. -/
def hexVal (c : Char) : Option Nat :=
  if 48 ≤ c.toNat ∧ c.toNat ≤ 57 then some (c.toNat - 48)
  else if 97 ≤ c.toNat ∧ c.toNat ≤ 102 then some (c.toNat - 87)
  else if 65 ≤ c.toNat ∧ c.toNat ≤ 70 then some (c.toNat - 55)
  else none

/-- A UTF-8 sequence in progress while decoding escapes: `remaining` continuation octets are
still expected, `value` holds the bits read so far, `minimum` is the least code point that
may be written with this many octets. -/
structure Utf8State where
  remaining : Nat
  value : Nat
  minimum : Nat
deriving DecidableEq, Repr

/-- Feed one decoded octet `b` to the UTF-8 decoder. The result is `none` when the octet is
not allowed here (the built-in throws `URIError`), otherwise the character completed by this
octet, if any, and the next decoder state. -/
def feedOctet : Option Utf8State → Nat → Option (Option Char × Option Utf8State)
  | none, b =>
    if b < 128 then some (some (Char.ofNat b), none)
    else if 192 ≤ b ∧ b < 224 then some (none, some ⟨1, b % 32, 128⟩)
    else if 224 ≤ b ∧ b < 240 then some (none, some ⟨2, b % 16, 2048⟩)
    else if 240 ≤ b ∧ b < 248 then some (none, some ⟨3, b % 8, 65536⟩)
    else none
  | some ⟨0, _, _⟩, _ => none
  | some ⟨k + 1, v, m⟩, b =>
    if 128 ≤ b ∧ b < 192 then
      if k = 0 then
        if m ≤ v * 64 + b % 64 ∧ v * 64 + b % 64 ≤ 1114111
            ∧ ¬ (55296 ≤ v * 64 + b % 64 ∧ v * 64 + b % 64 ≤ 57343) then
          some (some (Char.ofNat (v * 64 + b % 64)), none)
        else none
      else some (none, some ⟨k, v * 64 + b % 64, m⟩)
    else none

/-- Prepend an optional character. -/
def pushChar : Option Char → List Char → List Char
  | none, s => s
  | some c, s => c :: s

/-- Where the decoder stands inside an escape `%XX`: outside of one, after the `%`, or after
the first digit, whose value it keeps. -/
inductive Escape where
  | idle
  | percent
  | digit (x : Nat)
deriving DecidableEq, Repr

/-- Worker of `decodeURIComponent`, one character at a time; `none` stands for a thrown
`URIError`. A character outside an escape is copied, and is an error while continuation
octets are expected; the two characters after a `%` must be hexadecimal digits, and the octet
they spell is fed to the UTF-8 decoder. -/
def decodeGo : List Char → Escape → Option Utf8State → Option (List Char)
  | [], esc, st => if esc = .idle ∧ st = none then some [] else none
  | c :: cs, .idle, st =>
    if c = '%' then decodeGo cs .percent st
    else
      match st with
      | none => (decodeGo cs .idle none).map (c :: ·)
      | some _ => none
  | c :: cs, .percent, st =>
    match hexVal c with
    | some x => decodeGo cs (.digit x) st
    | none => none
  | c :: cs, .digit x, st =>
    match hexVal c with
    | some y =>
      match feedOctet st (16 * x + y) with
      | some (out, st') => (decodeGo cs .idle st').map (pushChar out)
      | none => none
    | none => none

/-- JavaScript `decodeURIComponent(s)`: every `%XX` escape is replaced by the character whose
UTF-8 encoding the escaped octets are; `none` when the built-in throws `URIError`
(truncated or non-hexadecimal escape, invalid UTF-8). -/
def decodeURIComponent (s : String) : Option String :=
  (decodeGo s.data .idle none).map String.mk

/-- Upper-case hexadecimal digit of a number below 16. -/
def hexDigit (n : Nat) : Char :=
  if n < 10 then Char.ofNat (48 + n) else Char.ofNat (55 + n)

/-- The escape `%XX` of one octet. -/
def escapeOctet (b : Nat) : List Char := ['%', hexDigit (b / 16), hexDigit (b % 16)]

/-- UTF-8 encoding of a character, as a list of octets. -/
def utf8Octets (c : Char) : List Nat :=
  if c.toNat < 128 then [c.toNat]
  else if c.toNat < 2048 then [192 + c.toNat / 64, 128 + c.toNat % 64]
  else if c.toNat < 65536 then
    [224 + c.toNat / 4096, 128 + c.toNat / 64 % 64, 128 + c.toNat % 64]
  else [240 + c.toNat / 262144, 128 + c.toNat / 4096 % 64, 128 + c.toNat / 64 % 64,
    128 + c.toNat % 64]

/-- Characters `encodeURIComponent` leaves alone: ASCII letters, digits and the marks
`-`, `_`, `.`, `!`, `~`, `*`, `(`, `)` and the apostrophe (code 39). -/
def isUnreserved (c : Char) : Bool :=
  c.isAlphanum || c == '-' || c == '_' || c == '.' || c == '!' || c == '~' || c == '*'
    || c == Char.ofNat 39 || c == '(' || c == ')'

/-- Percent-encoding of one character. -/
def encodeChar (c : Char) : List Char :=
  if isUnreserved c then [c] else (utf8Octets c).flatMap escapeOctet

/-- JavaScript `encodeURIComponent(s)`: the percent-encoding the AMP round trip refers to. -/
def encodeURIComponent (s : String) : String := String.mk (s.data.flatMap encodeChar)

/-- The call `targetUrl.replace(/(\?|&)sign-in=1/, '')` on a list of characters: the
leftmost occurrence of `?sign-in=1` or `&sign-in=1` is deleted, nothing else changes. -/
def removeSignInL : List Char → List Char
  | [] => []
  | c :: cs =>
    if (c = '?' ∨ c = '&') ∧ isPrefixB "sign-in=1".data cs = true then cs.drop 9
    else c :: removeSignInL cs

/-- JavaScript `targetUrl.replace(/(\?|&)sign-in=1/, '')`. -/
def removeSignIn (s : String) : String := String.mk (removeSignInL s.data)

/-- Case-insensitive match of one pattern character `p` (lower case in the pattern) against
`c`, for a regular expression with the `i` flag and without the `u` flag: an ASCII letter
matches itself and its other case, any other pattern character only itself. -/
def ciEq (p c : Char) : Bool := c == p || c == p.toUpper

/-- Case-insensitive prefix test for a literal part of a pattern. -/
def isPrefixCI : List Char → List Char → Bool
  | [], _ => true
  | _ :: _, [] => false
  | a :: p, b :: s => ciEq a b && isPrefixCI p s

/-- The part `[^>]*>` of the script pattern: everything through the first `>`; returns what
follows it. -/
def skipToGt : List Char → Option (List Char)
  | [] => none
  | c :: cs => if c = '>' then some cs else skipToGt cs

/-- The part `[\s\S]*?<\/script>` of the script pattern: everything through the first
closing tag; returns what follows it. -/
def skipToClose : List Char → Option (List Char)
  | [] => none
  | c :: cs =>
    if isPrefixCI "</script>".data (c :: cs) then some (cs.drop 8) else skipToClose cs

/-- A match of `/<script[^>]*>[\s\S]*?<\/script>/i` starting at the head of `s`: returns the
text after the match, `none` when the pattern does not match at this position. -/
def scriptMatch (s : List Char) : Option (List Char) :=
  if isPrefixCI "<script".data s then (skipToGt (s.drop 7)).bind skipToClose else none

/-- The test `/<script[^>]*>[\s\S]*?<\/script>/i.test(s)`: the pattern matches somewhere. -/
def hasScriptMatchL : List Char → Bool
  | [] => false
  | c :: cs => (scriptMatch (c :: cs)).isSome || hasScriptMatchL cs

/-- Whether a string contains a match of the script pattern. -/
def hasScriptMatch (s : String) : Bool := hasScriptMatchL s.data

/-- Worker of the global replacement, with the number of remaining steps as fuel. -/
def stripFuel : Nat → List Char → List Char
  | 0, s => s
  | _ + 1, [] => []
  | n + 1, c :: cs =>
    match scriptMatch (c :: cs) with
    | some rest => stripFuel n rest
    | none => c :: stripFuel n cs

/-- The call `content.replace(/<script[^>]*>[\s\S]*?<\/script>/gi, '')` on a list of
characters: scanning from the left, every match is deleted and the scan resumes right
after it. -/
def stripScriptsL (s : List Char) : List Char := stripFuel s.length s

/-- JavaScript `content.replace(/<script[^>]*>[\s\S]*?<\/script>/gi, '')`. -/
def stripScripts (s : String) : String := String.mk (stripScriptsL s.data)

/-- The UTF-16 code units of one character: the character itself below `0x10000`, a high and
a low surrogate above. -/
def utf16Units (c : Char) : List Nat :=
  if c.toNat < 65536 then [c.toNat]
  else [55296 + (c.toNat - 65536) / 1024, 56320 + (c.toNat - 65536) % 1024]

/-- A string as JavaScript holds it: the sequence of its UTF-16 code units. `length` and the
indices of `substring` count these units, not characters. -/
def utf16 (s : String) : List Nat := s.data.flatMap utf16Units

/-- JavaScript `s.substring(0, n)`, as code units: the first `n` units of `s`. The cut may
fall inside a surrogate pair, and then the result ends in a high surrogate with no low one,
which is why the result is a list of units and not a `String`. -/
def substring0 (s : String) (n : Nat) : List Nat := (utf16 s).take n

/-- The match of one pattern character against one code unit, as `ciEq` for characters. -/
def ciEq16 (p : Char) (u : Nat) : Bool := u == p.toNat || u == p.toUpper.toNat

/-- Case-insensitive prefix test of a literal part of a pattern against code units. -/
def isPrefixCI16 : List Char → List Nat → Bool
  | [], _ => true
  | _ :: _, [] => false
  | a :: p, b :: s => ciEq16 a b && isPrefixCI16 p s

/-- The part `[^>]*>` of the script pattern over code units (`>` is unit 62). -/
def skipToGt16 : List Nat → Option (List Nat)
  | [] => none
  | u :: us => if u = 62 then some us else skipToGt16 us

/-- The part `[\s\S]*?<\/script>` of the script pattern over code units. -/
def skipToClose16 : List Nat → Option (List Nat)
  | [] => none
  | u :: us =>
    if isPrefixCI16 "</script>".data (u :: us) then some (us.drop 8) else skipToClose16 us

/-- A match of the script pattern starting at the head of a sequence of code units. -/
def scriptMatch16 (s : List Nat) : Option (List Nat) :=
  if isPrefixCI16 "<script".data s then (skipToGt16 (s.drop 7)).bind skipToClose16 else none

/-- The test `/<script[^>]*>[\s\S]*?<\/script>/i.test(s)` on a sequence of code units, which
is what the engine matches on. -/
def hasScriptMatch16 : List Nat → Bool
  | [] => false
  | u :: us => (scriptMatch16 (u :: us)).isSome || hasScriptMatch16 us

/-! ## Regular expressions of the rule table -/

/-- One-character atoms of the patterns in the rule table. -/
inductive CharClass where
  | char (c : Char)
  | digit
  | dot
deriving DecidableEq, Repr

/-- Whether a character belongs to the class: `\d` is an ASCII digit, `.` is anything but a
line terminator. -/
def CharClass.test : CharClass → Char → Bool
  | .char a, c => c == a
  | .digit, c => decide (48 ≤ c.toNat ∧ c.toNat ≤ 57)
  | .dot, c => !(c.toNat == 10 || c.toNat == 13 || c.toNat == 8232 || c.toNat == 8233)

/-- Syntax of the regular expressions used as `block_regex` and `block_regex_general`. -/
inductive RegExp where
  | fail
  | empty
  | cls (k : CharClass)
  | seq (a b : RegExp)
  | alt (a b : RegExp)
  | star (a : RegExp)
deriving DecidableEq, Repr

/-- The quantifier `+`. -/
def RegExp.plus (a : RegExp) : RegExp := .seq a (.star a)

/-- A literal run of characters. -/
def RegExp.litL : List Char → RegExp
  | [] => .empty
  | c :: cs => .seq (.cls (.char c)) (RegExp.litL cs)

/-- A literal string (each character escaped as needed in the source pattern). -/
def RegExp.lit (s : String) : RegExp := RegExp.litL s.data

/-- Whether the expression matches the empty string. -/
def RegExp.nullable : RegExp → Bool
  | .fail => false
  | .empty => true
  | .cls _ => false
  | .seq a b => a.nullable && b.nullable
  | .alt a b => a.nullable || b.nullable
  | .star _ => true

/-- Sequence that collapses a failed left part. -/
def RegExp.mkSeq (a b : RegExp) : RegExp :=
  match a with
  | .fail => .fail
  | _ => .seq a b

/-- Alternation that drops a failed branch. -/
def RegExp.mkAlt (a b : RegExp) : RegExp :=
  match a, b with
  | .fail, _ => b
  | _, .fail => a
  | _, _ => .alt a b

/-- Derivative of an expression by one character. -/
def RegExp.deriv (c : Char) : RegExp → RegExp
  | .fail => .fail
  | .empty => .fail
  | .cls k => if k.test c then .empty else .fail
  | .seq a b =>
    if a.nullable then RegExp.mkAlt (RegExp.mkSeq (a.deriv c) b) (b.deriv c)
    else RegExp.mkSeq (a.deriv c) b
  | .alt a b => RegExp.mkAlt (a.deriv c) (b.deriv c)
  | .star a => RegExp.mkSeq (a.deriv c) (.star a)

/-- Whether some prefix of the text is matched by the expression. -/
def RegExp.matchesPrefix : RegExp → List Char → Bool
  | r, [] => r.nullable
  | r, c :: cs => r.nullable || RegExp.matchesPrefix (r.deriv c) cs

/-- Whether the expression matches somewhere in the text. -/
def RegExp.testL (r : RegExp) : List Char → Bool
  | [] => r.nullable
  | c :: cs => r.matchesPrefix (c :: cs) || RegExp.testL r cs

/-- JavaScript `new RegExp(r).test(s)` for a pattern without flags. -/
def RegExp.test (r : RegExp) (s : String) : Bool := r.testL s.data

/-! ## The rule table -/

/-- One site rule of `defaultSites`. A field that a rule object may lack is an `Option`;
`allow_cookies` and `random_ip` are read only for their truthiness. -/
structure Rule where
  domain : String
  group : Option (List String)
  allow_cookies : Bool
  remove_cookies_select_drop : Option (List String)
  block_regex : Option RegExp
  block_regex_general : Option RegExp
  excluded_domains : Option (List String)
  useragent : Option String
  referer : Option String
  random_ip : Bool
deriving DecidableEq, Repr

/-- A rule object with only `domain` set. -/
def Rule.ofDomain (domain : String) : Rule :=
  ⟨domain, none, false, none, none, none, none, none, none, false⟩

/-- Pattern `/(\.cm\.bloomberg\.com\/|assets\.bwbx\.io\/s\d\/javelin\/.+\/transporter\/)/`. -/
def bloombergRegex : RegExp :=
  .alt (.lit ".cm.bloomberg.com/")
    (.seq (.lit "assets.bwbx.io/s") (.seq (.cls .digit) (.seq (.lit "/javelin/")
      (.seq (RegExp.plus (.cls .dot)) (.lit "/transporter/")))))

/-- Pattern
`/(\.nytimes\.com\/meter\.js|mwcm\.nyt\.com\/.+\.js|cooking\.nytimes\.com\/api\/.+\/access)/`. -/
def nytimesRegex : RegExp :=
  .alt (.lit ".nytimes.com/meter.js")
    (.alt (.seq (.lit "mwcm.nyt.com/") (.seq (RegExp.plus (.cls .dot)) (.lit ".js")))
      (.seq (.lit "cooking.nytimes.com/api/") (.seq (RegExp.plus (.cls .dot)) (.lit "/access"))))

/-- Pattern `/cdn\.ampproject\.org\/v\d\/amp-subscriptions-.+\.js/`. -/
def auNewsCorpRegex : RegExp :=
  .seq (.lit "cdn.ampproject.org/v") (.seq (.cls .digit) (.seq (.lit "/amp-subscriptions-")
    (.seq (RegExp.plus (.cls .dot)) (.lit ".js"))))

/-- Pattern `/\.poool\.fr\//`. -/
def pooolRegex : RegExp := .lit ".poool.fr/"

/-- The table `defaultSites`, as `Object.entries` lists it: name and rule, in declaration
order. -/
def defaultSites : List (String × Rule) :=
  [("Bloomberg",
      ⟨"bloomberg.com", none, true, none, some bloombergRegex, none, none, none, none, false⟩),
   ("The New York Times",
      ⟨"nytimes.com", none, true, none, some nytimesRegex, none, none, some "googlebot", none,
        false⟩),
   ("Australia News Corp",
      ⟨"###_au_news_corp", some ["adelaidenow.com.au", "couriermail.com.au"], true, none,
        some auNewsCorpRegex, none, none, some "googlebot", none, false⟩),
   ("Poool.fr",
      ⟨"poool.fr", none, true, none, none, some pooolRegex, none, none, none, false⟩)]

/-- The constant `au_news_corp_domains`. -/
def au_news_corp_domains : List String := ["adelaidenow.com.au", "couriermail.com.au"]

/-- The constant `nofix_sites`. -/
def nofix_sites : List String := ["lemonde.fr", "nature.com"]

/-- Assignment `obj[key] = value` on an object kept as a list of entries: an existing key
keeps its place, a new key goes last. -/
def setKey {α : Type} (key : String) (value : α) : List (String × α) → List (String × α)
  | [] => [(key, value)]
  | (k, v) :: rest => if k = key then (k, value) :: rest else (k, v) :: setKey key value rest

/-- The function `expandSiteRules`, started from an empty `grouped_sites`: every rule with a
`group` stores it under its `domain`. -/
def expandSiteRules (sites : List (String × Rule)) : List (String × List String) :=
  sites.foldl (fun acc entry =>
    match entry.2.group with
    | some g => setKey entry.2.domain g acc
    | none => acc) []

/-- The object `grouped_sites` after `expandSiteRules(defaultSites)`. -/
def grouped_sites : List (String × List String) := expandSiteRules defaultSites

/-- The constant `custom_flex_not`. -/
def custom_flex_not : List (String × List String) := [("###_au_news_corp", ["perthnow.com.au"])]

/-- The value `Object.values(custom_flex_not).flat()`, which `initCustomFlexDomains` assigns
again. -/
def custom_flex_not_domains : List String := (custom_flex_not.map (·.2)).flatten

/-! ## The handler -/

/-- What `axios.get` resolves to, as far as the handler reads it: the response headers other
than `set-cookie`, the `set-cookie` array if the origin sent one, and the body text. -/
structure OriginResponse where
  headers : List (String × String)
  setCookie : Option (List String)
  data : String
deriving DecidableEq, Repr

/-- The platform the handler runs on. `urlParseHostname u` is `url.parse(u).hostname`: an
error when `url.parse` throws, `none` when the hostname is `null`. `axiosGet u h` is
`axios.get(u, ...)` with request headers `h`: an error carries the message of the rejection.
`mathRandom i` is the value of the `i`-th call of `Math.random()` in this request. -/
structure Env where
  urlParseHostname : String → Except String (Option String)
  axiosGet : String → List (String × String) → Except String OriginResponse
  mathRandom : Nat → ℚ

/-- The field `url` of the request body: `missing` is any falsy value that is not a string
(absent, `null`, `0`, `false`), `text` a string, `other` a truthy value that is not a string,
for which `url.parse` throws a `TypeError` with the given message. -/
inductive UrlArg where
  | missing
  | text (s : String)
  | other (message : String)
deriving DecidableEq, Repr

/-- The payload of a `status: success` response. `headers` and `setCookie` together are the
field `headers`; `content` is held as UTF-16 code units, since the truncation can split a
surrogate pair. -/
structure SuccessResult where
  url : String
  content : List Nat
  headers : List (String × String)
  setCookie : Option (List String)
  cookies : List String
  blockedScripts : List String
  siteRule : Option (String × Rule)
deriving DecidableEq, Repr

/-- What the handler sends. -/
inductive Response where
  | badRequest (error : String)
  | nofix (message : String)
  | redirect (redirectedUrl : String)
  | success (result : SuccessResult)
  | serverError (error : String)
deriving DecidableEq, Repr

/-- The test `rule.group && rule.group.includes(hostname)`. -/
def groupIncludes : Option (List String) → Option String → Bool
  | some g, some h => decide (h ∈ g)
  | _, _ => false

/-- The rule lookup loop: the first rule, in table order, whose `domain` is the hostname or
whose `group` lists it; the flag is `isGroupSite`. -/
def findSiteRule : List (String × Rule) → Option String → Option (String × Rule) × Bool
  | [], _ => (none, false)
  | entry :: rest, hostname =>
    if some entry.2.domain = hostname then (some entry, false)
    else if groupIncludes entry.2.group hostname then (some entry, true)
    else findSiteRule rest hostname

/-- The three headers every outbound request starts from. -/
def baseHeaders : List (String × String) :=
  [("Accept", "text/html,application/xhtml+xml,application/xml;q=0.9,image/webp,*/*;q=0.8"),
   ("Accept-Language", "en-US,en;q=0.5"),
   ("Connection", "keep-alive")]

/-- The `User-Agent` assignment. -/
def userAgentHeader (rule : Rule) : List (String × String) :=
  if rule.useragent = some "googlebot" then
    [("User-Agent", "Mozilla/5.0 (compatible; Googlebot/2.1; +http://www.google.com/bot.html)")]
  else if rule.useragent = some "bingbot" then
    [("User-Agent", "Mozilla/5.0 (compatible; Bingbot/2.0; +http://www.bing.com/bingbot.htm)")]
  else []

/-- The `Referer` assignment. -/
def refererHeader (rule : Rule) : List (String × String) :=
  if rule.referer = some "google" then [("Referer", "https://www.google.com/")]
  else if rule.referer = some "facebook" then [("Referer", "https://www.facebook.com/")]
  else []

/-- The number `Math.floor(r * 256)`. -/
def randomOctet (r : ℚ) : ℤ := ⌊r * 256⌋

/-- The `X-Forwarded-For` assignment, from four successive draws. -/
def forwardedForHeader (rule : Rule) (random : Nat → ℚ) : List (String × String) :=
  if rule.random_ip then
    [("X-Forwarded-For", toString (randomOctet (random 0)) ++ "." ++
      toString (randomOctet (random 1)) ++ "." ++ toString (randomOctet (random 2)) ++ "." ++
      toString (randomOctet (random 3)))]
  else []

/-- Header preparation: the base headers, then what the resolved rule adds. -/
def prepareHeaders (siteRule : Option Rule) (random : Nat → ℚ) : List (String × String) :=
  match siteRule with
  | none => baseHeaders
  | some rule =>
    baseHeaders ++ userAgentHeader rule ++ refererHeader rule ++ forwardedForHeader rule random

/-- The expression `targetUrl.split('/s/')[1] || targetUrl`. -/
def ampEmbedded (targetUrl : String) : String :=
  match (split targetUrl "/s/")[1]? with
  | some piece => if piece = "" then targetUrl else piece
  | none => targetUrl

/-- Message of the `TypeError` thrown by `hostname.includes(...)` when `hostname` is `null`. -/
def nullIncludesMessage : String :=
  "Cannot read properties of null (reading " ++ String.singleton (Char.ofNat 39) ++ "includes"
    ++ String.singleton (Char.ofNat 39) ++ ")"

/-- Where the handler stands when it has done everything that precedes `axios.get`: it has
either sent a response, or it is about to fetch with these request headers. -/
inductive Stage where
  | respond (r : Response)
  | request (hostname : String) (siteRule : Option (String × Rule))
      (headers : List (String × String))
deriving DecidableEq, Repr

/-- The handler from `url.parse` up to the fetch, for a non-empty string `targetUrl`. With a
`null` hostname the lookup finds nothing and the no-fix test is false, so the first thing that
happens is the `TypeError` of `hostname.includes`. -/
def route (env : Env) (sites : List (String × Rule)) (targetUrl : String) : Stage :=
  match env.urlParseHostname targetUrl with
  | .error message => .respond (.serverError ("Proxy error: " ++ message))
  | .ok none => .respond (.serverError ("Proxy error: " ++ nullIncludesMessage))
  | .ok (some hostname) =>
    if hostname ∈ nofix_sites then
      .respond (.nofix ("Site " ++ hostname ++ " is not supported"))
    else if includes hostname "cdn.ampproject.org" || includes hostname "google.com/amp" then
      match decodeURIComponent (ampEmbedded targetUrl) with
      | some decodedUrl => .respond (.redirect decodedUrl)
      | none => .respond (.serverError "Proxy error: URI malformed")
    else if hostname = "inkl.com" ∧ includes targetUrl "sign-in" = true then
      .respond (.redirect (removeSignIn targetUrl))
    else
      .request hostname (findSiteRule sites (some hostname)).1
        (prepareHeaders ((findSiteRule sites (some hostname)).1.map (·.2)) env.mathRandom)

/-- Cookie management: the `set-cookie` entries, emptied when a rule is resolved that does not
allow cookies, else filtered when the rule has a selective-drop list. -/
def cookieManagement (siteRule : Option Rule) (setCookie : Option (List String)) :
    List String :=
  match siteRule with
  | none => setCookie.getD []
  | some rule =>
    if rule.allow_cookies = false then []
    else
      match rule.remove_cookies_select_drop with
      | some names =>
        (setCookie.getD []).filter (fun cookie => !names.any (fun name => includes cookie name))
      | none => setCookie.getD []

/-- The test `!rule.excluded_domains || !rule.excluded_domains.includes(hostname)`. -/
def notExcluded (rule : Rule) (hostname : String) : Bool :=
  match rule.excluded_domains with
  | none => true
  | some domains => !decide (hostname ∈ domains)

/-- One round of the script blocking loop on the pair `(blockedScripts, content)`. -/
def blockStep (targetUrl hostname : String) (state : List String × String) (rule : Rule) :
    List String × String :=
  let state1 :=
    match rule.block_regex with
    | some regex =>
      if regex.test targetUrl then (state.1 ++ [targetUrl], stripScripts state.2) else state
    | none => state
  match rule.block_regex_general with
  | some regex =>
    if regex.test targetUrl && notExcluded rule hostname then
      (state1.1 ++ [targetUrl], stripScripts state1.2)
    else state1
  | none => state1

/-- The script blocking loop over `Object.values` of the table: the final
`(blockedScripts, content)`. -/
def scriptBlocking (sites : List (String × Rule)) (targetUrl hostname content : String) :
    List String × String :=
  (sites.map (·.2)).foldl (blockStep targetUrl hostname) ([], content)

/-- The `X-Frame-Options` override. -/
def overrideFrameOptions (hostname : String) (headers : List (String × String)) :
    List (String × String) :=
  if hostname = "nytimes.com" then setKey "x-frame-options" "SAMEORIGIN" headers else headers

/-- The handler after the fetch: the payload of the success response. -/
def rewrite (sites : List (String × Rule)) (targetUrl hostname : String)
    (siteRule : Option (String × Rule)) (response : OriginResponse) : SuccessResult :=
  { url := targetUrl
    content :=
      substring0 (scriptBlocking sites targetUrl hostname response.data).2 500 ++ utf16 "..."
    headers := overrideFrameOptions hostname response.headers
    setCookie := response.setCookie
    cookies := cookieManagement (siteRule.map (·.2)) response.setCookie
    blockedScripts := (scriptBlocking sites targetUrl hostname response.data).1
    siteRule := siteRule }

/-- The handler `app.post(/proxy)` over a rule table `sites`. -/
def proxyWith (env : Env) (sites : List (String × Rule)) (body : UrlArg) : Response :=
  match body with
  | .missing => .badRequest "URL is required"
  | .other message => .serverError ("Proxy error: " ++ message)
  | .text targetUrl =>
    if targetUrl = "" then .badRequest "URL is required"
    else
      match route env sites targetUrl with
      | .respond r => r
      | .request hostname siteRule headers =>
        match env.axiosGet targetUrl headers with
        | .error message => .serverError ("Proxy error: " ++ message)
        | .ok response => .success (rewrite sites targetUrl hostname siteRule response)

/-- The handler as shipped, over `defaultSites`. -/
def proxy (env : Env) (body : UrlArg) : Response := proxyWith env defaultSites body

/-! ## A sample platform and sample tables for concrete evaluations -/

/-- The success payload of a response, if it is one. -/
def Response.result? : Response → Option SuccessResult
  | .success r => some r
  | _ => none

/-- Text after the first `://`. -/
def afterScheme : List Char → Option (List Char)
  | [] => none
  | c :: cs => if isPrefixB "://".data (c :: cs) then some (cs.drop 2) else afterScheme cs

/-- A sample `url.parse(u).hostname` for plain URLs: the run of characters after `://` up to
the next `/`, `?`, `#` or `:`; `null` when there is none. -/
def sampleHostname (u : String) : Except String (Option String) :=
  match afterScheme u.data with
  | none => .ok none
  | some rest =>
    if rest.takeWhile (fun c => !(c == '/' || c == '?' || c == '#' || c == ':')) = [] then
      .ok none
    else
      .ok (some (String.mk
        (rest.takeWhile (fun c => !(c == '/' || c == '?' || c == '#' || c == ':')))))

/-- A sample platform: `sampleHostname` as the parser, an origin that answers every request
with `response`, and a random source that always draws `0`. -/
def samplePlatform (response : OriginResponse) : Env :=
  ⟨sampleHostname, fun _ _ => .ok response, fun _ => 0⟩

/-- A table in which a group that lists `example.com` is declared before the rule whose
domain is `example.com`. -/
def groupFirstSites : List (String × Rule) :=
  [("Group", ⟨"###_group", some ["example.com"], false, none, none, none, none, none, none,
      false⟩),
   ("Exact", Rule.ofDomain "example.com")]

/-- A table with one rule that does not allow cookies and has a selective-drop list. -/
def dropNoCookiesSites : List (String × Rule) :=
  [("Shop", ⟨"shop.example", none, false, some ["track"], none, none, none, none, none, false⟩)]

/-- A table with one rule that allows cookies and has a selective-drop list. -/
def dropSites : List (String × Rule) :=
  [("Shop", ⟨"shop.example", none, true, some ["track"], none, none, none, none, none, false⟩)]

/-- A table with one rule that neither allows cookies nor has a selective-drop list. -/
def noCookiesSites : List (String × Rule) := [("Shop", Rule.ofDomain "shop.example")]

/-! ## Which rules fire in the script blocking loop -/

/-- Whether the `block_regex` branch of the loop body runs for this rule. -/
def regexFires (rule : Rule) (targetUrl : String) : Bool :=
  match rule.block_regex with
  | some regex => regex.test targetUrl
  | none => false

/-- Whether the `block_regex_general` branch of the loop body runs for this rule. -/
def generalFires (rule : Rule) (targetUrl hostname : String) : Bool :=
  match rule.block_regex_general with
  | some regex => regex.test targetUrl && notExcluded rule hostname
  | none => false

/-- How many branches of the loop run over the whole table. -/
def fireCount (sites : List (String × Rule)) (targetUrl hostname : String) : Nat :=
  (sites.map (fun e =>
    (regexFires e.2 targetUrl).toNat + (generalFires e.2 targetUrl hostname).toNat)).sum

/-- A body in which deleting the inner script element joins the text around it into a new
script element. -/
def nestedScriptBody : String := "<scr<script></script>ipt>x</script>"

/-! ## The resolver as specified, and more sample tables -/

/-- The resolver in the words of the specification: over the whole table, the first rule
whose `domain` equals the hostname (not a group match); if there is none, the first rule
whose group members contain the hostname (a group match); otherwise no rule. -/
def resolveTwoPass (sites : List (String × Rule)) (hostname : Option String) :
    Option (String × Rule) × Bool :=
  match sites.find? (fun e => decide (some e.2.domain = hostname)) with
  | some e => (some e, false)
  | none =>
    match sites.find? (fun e => groupIncludes e.2.group hostname) with
    | some e => (some e, true)
    | none => (none, false)

/-- A rule that asks for Bingbot, the Facebook referer and a random forwarded address. -/
def spoofRule : Rule :=
  ⟨"news.example", none, true, none, none, none, none, some "bingbot", some "facebook", true⟩

/-- A table with the rule `spoofRule`. -/
def spoofSites : List (String × Rule) := [("News", spoofRule)]

/-- A random source that draws `1/3`, `0`, `255/256` and `1/2`, then `0`. -/
def sampleDraws : Nat → ℚ
  | 0 => 1 / 3
  | 1 => 0
  | 2 => 255 / 256
  | 3 => 1 / 2
  | _ => 0

/-- A body of 601 code units: the letter `a` followed by 300 times the character U+1F600,
each of which takes two units, so that unit 500 is the high surrogate of a pair. -/
def emojiBody : String := String.mk ('a' :: List.replicate 300 (Char.ofNat 128512))

/-- A body of 600 code units: 300 times the character U+1F600. -/
def emojiRun : String := String.mk (List.replicate 300 (Char.ofNat 128512))

/-- A rule with a general pattern and an exclusion list of its own. -/
def carveOutRule : Rule :=
  ⟨"###_flex", some ["flex.example"], true, none, some (.lit "/meter.js"),
    some (.lit "/paywall/"), some ["perthnow.com.au"], none, none, false⟩

/-! ## The handler, case by case -/

theorem route_of_hostname (env : Env) (sites : List (String × Rule))
    (targetUrl hostname : String)
    (hp : env.urlParseHostname targetUrl = .ok (some hostname)) :
    route env sites targetUrl =
      if hostname ∈ nofix_sites then
        .respond (.nofix ("Site " ++ hostname ++ " is not supported"))
      else if includes hostname "cdn.ampproject.org" || includes hostname "google.com/amp" then
        match decodeURIComponent (ampEmbedded targetUrl) with
        | some decodedUrl => .respond (.redirect decodedUrl)
        | none => .respond (.serverError "Proxy error: URI malformed")
      else if hostname = "inkl.com" ∧ includes targetUrl "sign-in" = true then
        .respond (.redirect (removeSignIn targetUrl))
      else
        .request hostname (findSiteRule sites (some hostname)).1
          (prepareHeaders ((findSiteRule sites (some hostname)).1.map (·.2)) env.mathRandom) := by
  unfold route
  rw [hp]

theorem proxyWith_text (env : Env) (sites : List (String × Rule)) (targetUrl : String)
    (hne : targetUrl ≠ "") :
    proxyWith env sites (.text targetUrl) =
      match route env sites targetUrl with
      | .respond r => r
      | .request hostname siteRule headers =>
        match env.axiosGet targetUrl headers with
        | .error message => .serverError ("Proxy error: " ++ message)
        | .ok response => .success (rewrite sites targetUrl hostname siteRule response) := by
  unfold proxyWith
  simp only [hne, if_false]

theorem proxyWith_success_inv (env : Env) (sites : List (String × Rule))
    (targetUrl hostname : String) (r : SuccessResult)
    (hp : env.urlParseHostname targetUrl = .ok (some hostname))
    (hs : proxyWith env sites (.text targetUrl) = .success r) :
    ∃ response, env.axiosGet targetUrl
        (prepareHeaders ((findSiteRule sites (some hostname)).1.map (·.2)) env.mathRandom)
          = .ok response ∧
      r = rewrite sites targetUrl hostname (findSiteRule sites (some hostname)).1 response := by
  have hne : targetUrl ≠ "" := by
    intro h
    subst h
    simp [proxyWith] at hs
  rw [proxyWith_text env sites targetUrl hne,
    route_of_hostname env sites targetUrl hostname hp] at hs
  by_cases h1 : hostname ∈ nofix_sites
  · simp [h1] at hs
  · by_cases h2 :
        (includes hostname "cdn.ampproject.org" || includes hostname "google.com/amp") = true
    · rw [if_neg h1, if_pos h2] at hs
      cases hd : decodeURIComponent (ampEmbedded targetUrl) <;> rw [hd] at hs <;> simp at hs
    · by_cases h3 : hostname = "inkl.com" ∧ includes targetUrl "sign-in" = true
      · rw [if_neg h1, if_neg h2, if_pos h3] at hs
        simp at hs
      · rw [if_neg h1, if_neg h2, if_neg h3] at hs
        simp only at hs
        cases hf : env.axiosGet targetUrl
          (prepareHeaders ((findSiteRule sites (some hostname)).1.map (·.2)) env.mathRandom) with
        | error m => rw [hf] at hs; simp at hs
        | ok response =>
          rw [hf] at hs
          simp only [Response.success.injEq] at hs
          exact ⟨response, rfl, hs.symm⟩

theorem findSiteRule_append_of_no_match (pre post : List (String × Rule)) (hostname : String)
    (hpre : ∀ e ∈ pre, e.2.domain ≠ hostname ∧ groupIncludes e.2.group (some hostname) = false) :
    findSiteRule (pre ++ post) (some hostname) = findSiteRule post (some hostname) := by
  induction pre with
  | nil => rfl
  | cons e pre ih =>
    have he := hpre e (List.mem_cons_self _ _)
    have hrest : ∀ e' ∈ pre, e'.2.domain ≠ hostname ∧
        groupIncludes e'.2.group (some hostname) = false :=
      fun e' h' => hpre e' (List.mem_cons_of_mem _ h')
    simp [findSiteRule, he.1, he.2, ih hrest]

/-! ## Rule lookup -/

/-- C1, as stated, fails: in `groupFirstSites` the hostname `example.com` is the domain of
the rule `Exact` and a group member of the rule `Group` declared before it, and the lookup
returns `Group` with `isGroupSite = true`. -/
theorem lookup_prefers_earlier_group :
    ("Exact", Rule.ofDomain "example.com") ∈ groupFirstSites ∧
      (Rule.ofDomain "example.com").domain = "example.com" ∧
      (∃ b ∈ groupFirstSites, b ≠ ("Exact", Rule.ofDomain "example.com") ∧
        groupIncludes b.2.group (some "example.com") = true) ∧
      (findSiteRule groupFirstSites (some "example.com")).2 = true ∧
      findSiteRule groupFirstSites (some "example.com")
        ≠ (some ("Exact", Rule.ofDomain "example.com"), false) := by
  decide

/-- C1, amended: if the hostname equals the domain of rule `a` and no rule declared before
`a` has that domain or lists the hostname in its group, the lookup returns `a` with
`isGroupSite = false`, whatever rules follow `a` (among them any rule whose group lists the
hostname). -/
theorem lookup_exact_before_group (pre post : List (String × Rule)) (a : String × Rule)
    (hostname : String) (ha : a.2.domain = hostname)
    (hpre : ∀ e ∈ pre, e.2.domain ≠ hostname ∧ groupIncludes e.2.group (some hostname) = false) :
    findSiteRule (pre ++ a :: post) (some hostname) = (some a, false) := by
  rw [findSiteRule_append_of_no_match pre (a :: post) hostname hpre]
  simp [findSiteRule, ha]

/-- C1, amended, at the shipped table followed by the rule `Exact` for `example.com` and then
by the group `Group` that lists `example.com`. -/
theorem lookup_exact_before_group_witness :
    findSiteRule (defaultSites ++ ("Exact", Rule.ofDomain "example.com") ::
        [("Group", ⟨"###_group", some ["example.com"], false, none, none, none, none, none,
          none, false⟩)])
      (some "example.com") = (some ("Exact", Rule.ofDomain "example.com"), false) :=
  lookup_exact_before_group defaultSites
    [("Group", ⟨"###_group", some ["example.com"], false, none, none, none, none, none, none,
      false⟩)]
    ("Exact", Rule.ofDomain "example.com") "example.com" rfl (by decide)

/-! ## No-fix hosts -/

/-- C2: for a target URL whose parsed hostname is in `nofix_sites`, the handler has answered
`status: nofix` with the hostname in the message before the fetch: `route` ends in a
response, not in a request, whatever the rule table and the platform. -/
theorem nofix_responds_before_fetch (env : Env) (sites : List (String × Rule))
    (targetUrl hostname : String) (hne : targetUrl ≠ "")
    (hp : env.urlParseHostname targetUrl = .ok (some hostname))
    (hn : hostname ∈ nofix_sites) :
    route env sites targetUrl = .respond (.nofix ("Site " ++ hostname ++ " is not supported")) ∧
      proxyWith env sites (.text targetUrl)
        = .nofix ("Site " ++ hostname ++ " is not supported") := by
  have hr := route_of_hostname env sites targetUrl hostname hp
  rw [if_pos hn] at hr
  refine ⟨hr, ?_⟩
  rw [proxyWith_text env sites targetUrl hne, hr]

/-- C2 at `https://lemonde.fr/article` on the sample platform. -/
theorem nofix_responds_before_fetch_witness :
    route (samplePlatform ⟨[], none, "body"⟩) defaultSites "https://lemonde.fr/article"
        = .respond (.nofix ("Site " ++ "lemonde.fr" ++ " is not supported")) ∧
      proxyWith (samplePlatform ⟨[], none, "body"⟩) defaultSites
        (.text "https://lemonde.fr/article")
        = .nofix ("Site " ++ "lemonde.fr" ++ " is not supported") :=
  nofix_responds_before_fetch (samplePlatform ⟨[], none, "body"⟩) defaultSites
    "https://lemonde.fr/article" "lemonde.fr" (by decide) rfl (by decide)

/-! ## Cookie management -/

/-- C3, as stated, fails: `example.com` resolves to no rule of `defaultSites`, the origin
sends one cookie, and the success result carries that cookie. -/
theorem cookies_kept_without_rule :
    findSiteRule defaultSites (some "example.com") = (none, false) ∧
      ((proxy (samplePlatform ⟨[], some ["sid=1"], "body"⟩)
        (.text "https://example.com/page")).result?.map (·.cookies)) = some ["sid=1"] := by
  decide

/-- C3, amended: when the hostname resolves to no rule, the `cookies` of the success result
are the `set-cookie` entries of the origin response, unchanged (none when the origin sent
no such header). -/
theorem cookies_without_rule (env : Env) (sites : List (String × Rule))
    (targetUrl hostname : String) (response : OriginResponse) (r : SuccessResult)
    (hp : env.urlParseHostname targetUrl = .ok (some hostname))
    (hnone : (findSiteRule sites (some hostname)).1 = none)
    (hf : env.axiosGet targetUrl baseHeaders = .ok response)
    (hs : proxyWith env sites (.text targetUrl) = .success r) :
    r.cookies = response.setCookie.getD [] := by
  obtain ⟨resp, hresp, hr⟩ := proxyWith_success_inv env sites targetUrl hostname r hp hs
  rw [hnone] at hresp hr
  simp only [Option.map_none', prepareHeaders] at hresp
  rw [hf] at hresp
  cases hresp
  rw [hr]
  rfl

/-- C3, amended, at `https://example.com/page` on the sample platform. -/
theorem cookies_without_rule_witness :
    (⟨"https://example.com/page", utf16 "body...", [], some ["sid=1"], ["sid=1"], [], none⟩ :
      SuccessResult).cookies = (⟨[], some ["sid=1"], "body"⟩ : OriginResponse).setCookie.getD [] :=
  cookies_without_rule (samplePlatform ⟨[], some ["sid=1"], "body"⟩) defaultSites
    "https://example.com/page" "example.com" ⟨[], some ["sid=1"], "body"⟩ _
    rfl (by decide) rfl (by decide)

/-- C4: when the hostname resolves to a rule with `allow_cookies` falsy and without
`remove_cookies_select_drop`, the `cookies` of the success result are empty, whatever
`set-cookie` entries the origin sent. -/
theorem cookies_dropped_when_not_allowed (env : Env) (sites : List (String × Rule))
    (targetUrl hostname : String) (entry : String × Rule) (r : SuccessResult)
    (hp : env.urlParseHostname targetUrl = .ok (some hostname))
    (hrule : (findSiteRule sites (some hostname)).1 = some entry)
    (hallow : entry.2.allow_cookies = false)
    (_hdrop : entry.2.remove_cookies_select_drop = none)
    (hs : proxyWith env sites (.text targetUrl) = .success r) :
    r.cookies = [] := by
  obtain ⟨resp, _, hr⟩ := proxyWith_success_inv env sites targetUrl hostname r hp hs
  rw [hr, hrule]
  simp [rewrite, cookieManagement, hallow]

/-- C4 at `https://shop.example/cart` on the sample platform with the table
`noCookiesSites`. -/
theorem cookies_dropped_when_not_allowed_witness :
    (⟨"https://shop.example/cart", utf16 "body...", [], some ["sid=1"], [], [],
      some ("Shop", Rule.ofDomain "shop.example")⟩ : SuccessResult).cookies = [] :=
  cookies_dropped_when_not_allowed (samplePlatform ⟨[], some ["sid=1"], "body"⟩) noCookiesSites
    "https://shop.example/cart" "shop.example" ("Shop", Rule.ofDomain "shop.example") _
    rfl (by decide) (by decide) (by decide) (by decide)

/-- C5, as stated, fails: with the rule of `dropNoCookiesSites` (selective-drop list
`track`, cookies not allowed) the origin cookie `sid=1` contains no listed name, yet the
success result carries no cookie. -/
theorem selective_drop_needs_allow_cookies :
    (findSiteRule dropNoCookiesSites (some "shop.example")).1.map
        (·.2.remove_cookies_select_drop) = some (some ["track"]) ∧
      includes "sid=1" "track" = false ∧
      ((proxyWith (samplePlatform ⟨[], some ["sid=1", "track=9"], "body"⟩) dropNoCookiesSites
        (.text "https://shop.example/cart")).result?.map (·.cookies)) = some [] := by
  decide

/-- C5, amended: when the hostname resolves to a rule with a selective-drop list, no cookie
of the success result contains a listed name; if the rule allows cookies, the `cookies` are
exactly the origin entries that contain no listed name, in the origin order; if it does not,
they are empty. -/
theorem cookies_selective_drop (env : Env) (sites : List (String × Rule))
    (targetUrl hostname : String) (entry : String × Rule) (names : List String)
    (response : OriginResponse) (r : SuccessResult)
    (hp : env.urlParseHostname targetUrl = .ok (some hostname))
    (hrule : (findSiteRule sites (some hostname)).1 = some entry)
    (hdrop : entry.2.remove_cookies_select_drop = some names)
    (hf : env.axiosGet targetUrl (prepareHeaders (some entry.2) env.mathRandom) = .ok response)
    (hs : proxyWith env sites (.text targetUrl) = .success r) :
    (∀ cookie ∈ r.cookies, ∀ name ∈ names, includes cookie name = false) ∧
      (entry.2.allow_cookies = true →
        r.cookies = (response.setCookie.getD []).filter
          (fun cookie => !names.any (fun name => includes cookie name))) ∧
      (entry.2.allow_cookies = false → r.cookies = []) := by
  obtain ⟨resp, hresp, hr⟩ := proxyWith_success_inv env sites targetUrl hostname r hp hs
  rw [hrule] at hresp hr
  simp only [Option.map_some'] at hresp
  rw [hf] at hresp
  cases hresp
  have hc : r.cookies = cookieManagement (some entry.2) response.setCookie := by
    rw [hr]
    rfl
  cases hallow : entry.2.allow_cookies with
  | false => simp [hc, cookieManagement, hallow]
  | true =>
    have hfilter : r.cookies = (response.setCookie.getD []).filter
        (fun cookie => !names.any (fun name => includes cookie name)) := by
      simp [hc, cookieManagement, hallow, hdrop]
    refine ⟨?_, fun _ => hfilter, fun h => by cases h⟩
    intro cookie hmem name hname
    rw [hfilter, List.mem_filter] at hmem
    have := hmem.2
    simp only [Bool.not_eq_true', List.any_eq_false] at this
    simpa using this name hname

/-- C5, amended, at `https://shop.example/cart` on the sample platform with the table
`dropSites`: of the origin cookies `sid=1` and `track=9` only the first is returned. -/
theorem cookies_selective_drop_witness :
    (∀ cookie ∈ (["sid=1"] : List String), ∀ name ∈ ["track"], includes cookie name = false) ∧
      (true = true → (["sid=1"] : List String) = (["sid=1", "track=9"] : List String).filter
          (fun cookie => !(["track"] : List String).any (fun name => includes cookie name))) ∧
      (true = false → (["sid=1"] : List String) = []) :=
  cookies_selective_drop (samplePlatform ⟨[], some ["sid=1", "track=9"], "body"⟩) dropSites
    "https://shop.example/cart" "shop.example"
    ("Shop", ⟨"shop.example", none, true, some ["track"], none, none, none, none, none, false⟩)
    ["track"] ⟨[], some ["sid=1", "track=9"], "body"⟩
    ⟨"https://shop.example/cart", utf16 "body...", [], some ["sid=1", "track=9"], ["sid=1"], [],
      some ("Shop",
        ⟨"shop.example", none, true, some ["track"], none, none, none, none, none, false⟩)⟩
    rfl (by decide) (by decide) rfl (by decide)


/-! ## Percent-decoding inverts percent-encoding -/

theorem hexVal_hexDigit : ∀ n < 16, hexVal (hexDigit n) = some n := by decide

theorem hexDigit_ne_slash : ∀ n < 16, hexDigit n ≠ '/' := by decide

theorem decodeGo_escapeOctet (st : Option Utf8State) (b : Nat) (rest : List Char)
    (hb : b < 256) :
    decodeGo (escapeOctet b ++ rest) .idle st =
      match feedOctet st b with
      | some (out, st') => (decodeGo rest .idle st').map (pushChar out)
      | none => none := by
  have h1 : hexVal (hexDigit (b / 16)) = some (b / 16) := hexVal_hexDigit _ (by omega)
  have h2 : hexVal (hexDigit (b % 16)) = some (b % 16) := hexVal_hexDigit _ (by omega)
  have h3 : 16 * (b / 16) + b % 16 = b := by omega
  simp [escapeOctet, decodeGo, h1, h2, h3]

theorem char_toNat_valid (c : Char) :
    c.toNat < 55296 ∨ (57343 < c.toNat ∧ c.toNat < 1114112) := c.valid

theorem feedOctet_ascii (b : Nat) (c : Char) (hb : b < 128) (hc : b = c.toNat) :
    feedOctet none b = some (some c, none) := by
  subst hc
  simp only [feedOctet, if_pos hb, Char.ofNat_toNat]

theorem feedOctet_lead2 (b x : Nat) (hb : 192 ≤ b ∧ b < 224) (hx : b % 32 = x) :
    feedOctet none b = some (none, some ⟨1, x, 128⟩) := by
  have h1 : ¬ b < 128 := by omega
  simp only [feedOctet, if_neg h1, if_pos hb, hx]

theorem feedOctet_lead3 (b x : Nat) (hb : 224 ≤ b ∧ b < 240) (hx : b % 16 = x) :
    feedOctet none b = some (none, some ⟨2, x, 2048⟩) := by
  have h1 : ¬ b < 128 := by omega
  have h2 : ¬ (192 ≤ b ∧ b < 224) := by omega
  simp only [feedOctet, if_neg h1, if_neg h2, if_pos hb, hx]

theorem feedOctet_lead4 (b x : Nat) (hb : 240 ≤ b ∧ b < 248) (hx : b % 8 = x) :
    feedOctet none b = some (none, some ⟨3, x, 65536⟩) := by
  have h1 : ¬ b < 128 := by omega
  have h2 : ¬ (192 ≤ b ∧ b < 224) := by omega
  have h3 : ¬ (224 ≤ b ∧ b < 240) := by omega
  simp only [feedOctet, if_neg h1, if_neg h2, if_neg h3, if_pos hb, hx]

theorem feedOctet_more (k v m b w : Nat) (hb : 128 ≤ b ∧ b < 192) (hw : v * 64 + b % 64 = w) :
    feedOctet (some ⟨k + 2, v, m⟩) b = some (none, some ⟨k + 1, w, m⟩) := by
  have hk : ¬ (k + 1 = 0) := by omega
  simp only [feedOctet, if_pos hb, if_neg hk, hw]

theorem feedOctet_last (v m b : Nat) (c : Char) (hb : 128 ≤ b ∧ b < 192)
    (hw : v * 64 + b % 64 = c.toNat) (hm : m ≤ c.toNat) :
    feedOctet (some ⟨1, v, m⟩) b = some (some c, none) := by
  have hv := char_toNat_valid c
  have hok : m ≤ c.toNat ∧ c.toNat ≤ 1114111 ∧ ¬ (55296 ≤ c.toNat ∧ c.toNat ≤ 57343) := by
    omega
  simp only [feedOctet, if_pos hb, hw, if_pos hok, if_true, Char.ofNat_toNat]

theorem map_pushChar_some (c : Char) (o : Option (List Char)) :
    o.map (pushChar (some c)) = o.map (c :: ·) := by
  cases o <;> rfl

theorem map_pushChar_none (o : Option (List Char)) : o.map (pushChar none) = o := by
  cases o <;> rfl

theorem decodeGo_encodeChar (c : Char) (rest : List Char) :
    decodeGo (encodeChar c ++ rest) .idle none = (decodeGo rest .idle none).map (c :: ·) := by
  unfold encodeChar
  split
  · rename_i hu
    have hne : c ≠ '%' := by
      rintro rfl
      exact absurd hu (by decide)
    simp [decodeGo, hne]
  · have hv := char_toNat_valid c
    unfold utf8Octets
    split
    · rename_i h1
      simp only [List.flatMap_cons, List.flatMap_nil, List.append_nil]
      rw [decodeGo_escapeOctet _ _ _ (by omega), feedOctet_ascii _ c h1 rfl]
      exact map_pushChar_some c _
    · split
      · rename_i h1 h2
        simp only [List.flatMap_cons, List.flatMap_nil, List.append_nil, List.append_assoc]
        rw [decodeGo_escapeOctet _ _ _ (by omega),
          feedOctet_lead2 _ (c.toNat / 64) (by omega) (by omega)]
        simp only
        rw [decodeGo_escapeOctet _ _ _ (by omega),
          feedOctet_last _ _ _ c (by omega) (by omega) (by omega)]
        simp only [map_pushChar_none, map_pushChar_some]
      · split
        · rename_i h1 h2 h3
          simp only [List.flatMap_cons, List.flatMap_nil, List.append_nil, List.append_assoc]
          rw [decodeGo_escapeOctet _ _ _ (by omega),
            feedOctet_lead3 _ (c.toNat / 4096) (by omega) (by omega)]
          simp only
          rw [decodeGo_escapeOctet _ _ _ (by omega),
            feedOctet_more _ _ _ _ (c.toNat / 64) (by omega) (by omega)]
          simp only
          rw [decodeGo_escapeOctet _ _ _ (by omega),
            feedOctet_last _ _ _ c (by omega) (by omega) (by omega)]
          simp only [map_pushChar_none, map_pushChar_some]
        · rename_i h1 h2 h3
          simp only [List.flatMap_cons, List.flatMap_nil, List.append_nil, List.append_assoc]
          rw [decodeGo_escapeOctet _ _ _ (by omega),
            feedOctet_lead4 _ (c.toNat / 262144) (by omega) (by omega)]
          simp only
          rw [decodeGo_escapeOctet _ _ _ (by omega),
            feedOctet_more _ _ _ _ (c.toNat / 4096) (by omega) (by omega)]
          simp only
          rw [decodeGo_escapeOctet _ _ _ (by omega),
            feedOctet_more _ _ _ _ (c.toNat / 64) (by omega) (by omega)]
          simp only
          rw [decodeGo_escapeOctet _ _ _ (by omega),
            feedOctet_last _ _ _ c (by omega) (by omega) (by omega)]
          simp only [map_pushChar_none, map_pushChar_some]

theorem decodeGo_encode (s rest : List Char) :
    decodeGo (s.flatMap encodeChar ++ rest) .idle none
      = (decodeGo rest .idle none).map (s ++ ·) := by
  induction s with
  | nil =>
    simp only [List.flatMap_nil, List.nil_append]
    cases decodeGo rest .idle none <;> rfl
  | cons c s ih =>
    simp only [List.flatMap_cons, List.append_assoc]
    rw [decodeGo_encodeChar, ih]
    cases decodeGo rest .idle none <;> rfl

theorem decodeURIComponent_encodeURIComponent (p : String) :
    decodeURIComponent (encodeURIComponent p) = some p := by
  have h := decodeGo_encode p.data []
  simp only [List.append_nil] at h
  simp [decodeURIComponent, encodeURIComponent, h, decodeGo]

/-! ## Facts about `includes` and `split` -/

theorem includesL_of_isPrefixB (t s : List Char) (h : isPrefixB t s = true) :
    includesL s t = true := by
  cases s with
  | nil => simpa [includesL] using h
  | cons c cs => simp [includesL, h]

theorem includesL_cons_false (c : Char) (cs t : List Char) (h : includesL (c :: cs) t = false) :
    isPrefixB t (c :: cs) = false ∧ includesL cs t = false := by
  simpa [includesL] using h

theorem includesL_append_left (x s t : List Char) (h : includesL s t = true) :
    includesL (x ++ s) t = true := by
  induction x with
  | nil => simpa using h
  | cons c x ih => simp [includesL, ih]

theorem isPrefixB_append_right (t x y : List Char) (h : isPrefixB t x = true) :
    isPrefixB t (x ++ y) = true := by
  induction t generalizing x with
  | nil => simp [isPrefixB]
  | cons a t ih =>
    cases x with
    | nil => simp [isPrefixB] at h
    | cons b x =>
      simp only [isPrefixB, Bool.and_eq_true, List.cons_append] at h ⊢
      exact ⟨h.1, ih x h.2⟩

theorem isPrefixB_self_append (t y : List Char) : isPrefixB t (t ++ y) = true := by
  induction t with
  | nil => simp [isPrefixB]
  | cons a t ih => simp [isPrefixB, ih]

theorem isPrefixB_of_append (t u x : List Char) (h : isPrefixB (t ++ u) x = true) :
    isPrefixB t x = true := by
  induction t generalizing x with
  | nil => simp [isPrefixB]
  | cons a t ih =>
    cases x with
    | nil => simp [isPrefixB] at h
    | cons b x =>
      simp only [isPrefixB, Bool.and_eq_true, List.cons_append] at h ⊢
      exact ⟨h.1, ih x h.2⟩

theorem isPrefixB_before_foreign (t x y : List Char) (c : Char) (hc : c ∉ t)
    (h : isPrefixB t (x ++ c :: y) = true) : isPrefixB t x = true := by
  induction t generalizing x with
  | nil => simp [isPrefixB]
  | cons a t ih =>
    have hca : a ≠ c := fun e => hc (e ▸ List.mem_cons_self _ _)
    have hct : c ∉ t := fun e => hc (List.mem_cons_of_mem _ e)
    cases x with
    | nil => simp [isPrefixB, hca] at h
    | cons b x =>
      simp only [isPrefixB, Bool.and_eq_true, List.cons_append] at h ⊢
      exact ⟨h.1, ih x hct h.2⟩

theorem includesL_false_of_not_mem (c : Char) (t s : List Char) (h : c ∉ s) :
    includesL s (c :: t) = false := by
  induction s with
  | nil => simp [includesL, isPrefixB]
  | cons b s ih =>
    have hb : c ≠ b := fun e => h (e ▸ List.mem_cons_self _ _)
    have hs : c ∉ s := fun e => h (List.mem_cons_of_mem _ e)
    simp [includesL, isPrefixB, hb, ih hs]

theorem not_mem_of_includesL_false (c : Char) (s : List Char) (h : includesL s [c] = false) :
    c ∉ s := by
  induction s with
  | nil => simp
  | cons b s ih =>
    have h' := includesL_cons_false b s [c] h
    have hb : c ≠ b := by
      intro e
      subst e
      simp [isPrefixB] at h'
    simp only [List.mem_cons, not_or]
    exact ⟨hb, ih h'.2⟩

theorem splitGo_of_not_includes (sep cur s : List Char) (h : includesL s sep = false) :
    splitGo sep 0 cur s = [cur.reverse ++ s] := by
  induction s generalizing cur with
  | nil => simp [splitGo]
  | cons c cs ih =>
    have h' := includesL_cons_false c cs sep h
    simp [splitGo, h'.1, ih (c :: cur) h'.2]

theorem split_of_not_includes (s sep : String) (h : includes s sep = false) :
    split s sep = [s] := by
  unfold split
  rw [splitGo_of_not_includes sep.data [] s.data h]
  rfl

theorem splitGo_amp_prefix (rest : List Char) :
    splitGo "/s/".data 0 [] ("https://cdn.ampproject.org/c/s/".data ++ rest)
      = "https://cdn.ampproject.org/c".data :: splitGo "/s/".data 0 [] rest := by
  rfl

theorem utf8Octets_lt (c : Char) : ∀ b ∈ utf8Octets c, b < 256 := by
  have hv := char_toNat_valid c
  intro b hb
  unfold utf8Octets at hb
  split at hb
  · simp only [List.mem_singleton] at hb
    omega
  · split at hb
    · simp only [List.mem_cons, List.mem_singleton, List.not_mem_nil, or_false] at hb
      omega
    · split at hb
      · simp only [List.mem_cons, List.mem_singleton, List.not_mem_nil, or_false] at hb
        omega
      · simp only [List.mem_cons, List.mem_singleton, List.not_mem_nil, or_false] at hb
        omega

theorem slash_not_mem_encodeChar (c : Char) : '/' ∉ encodeChar c := by
  unfold encodeChar
  split
  · rename_i hu
    simp only [List.mem_singleton]
    rintro rfl
    exact absurd hu (by decide)
  · simp only [List.mem_flatMap, not_exists, not_and]
    intro b hb hmem
    have hlt := utf8Octets_lt c b hb
    simp only [escapeOctet, List.mem_cons, List.mem_singleton, List.not_mem_nil, or_false] at hmem
    rcases hmem with h | h | h
    · exact absurd h (by decide)
    · exact hexDigit_ne_slash (b / 16) (by omega) h.symm
    · exact hexDigit_ne_slash (b % 16) (by omega) h.symm

theorem slash_not_mem_encode (s : List Char) : '/' ∉ s.flatMap encodeChar := by
  simp only [List.mem_flatMap, not_exists, not_and]
  intro c _
  exact slash_not_mem_encodeChar c

theorem encodeURIComponent_ne_empty (p : String) (hp : p ≠ "") : encodeURIComponent p ≠ "" := by
  intro h
  have hd := decodeURIComponent_encodeURIComponent p
  rw [h] at hd
  have : decodeURIComponent "" = some "" := by decide
  rw [this] at hd
  exact hp (Option.some.inj hd).symm

theorem ampEmbedded_amp_cache (p : String) (hp : p ≠ "") :
    ampEmbedded ("https://cdn.ampproject.org/c/s/" ++ encodeURIComponent p)
      = encodeURIComponent p := by
  have hsplit : split ("https://cdn.ampproject.org/c/s/" ++ encodeURIComponent p) "/s/"
      = ["https://cdn.ampproject.org/c", encodeURIComponent p] := by
    have hno : includesL (encodeURIComponent p).data "/s/".data = false :=
      includesL_false_of_not_mem '/' ['s', '/'] _ (slash_not_mem_encode p.data)
    unfold split
    rw [String.data_append, splitGo_amp_prefix, splitGo_of_not_includes _ [] _ hno]
    rfl
  unfold ampEmbedded
  rw [hsplit]
  simp [encodeURIComponent_ne_empty p hp]

theorem not_nofix_of_amp (hostname : String)
    (h : (includes hostname "cdn.ampproject.org" || includes hostname "google.com/amp") = true) :
    hostname ∉ nofix_sites := by
  intro hm
  simp only [nofix_sites, List.mem_cons, List.mem_singleton, List.not_mem_nil, or_false] at hm
  rcases hm with rfl | rfl <;> exact absurd h (by decide)

theorem proxyWith_amp (env : Env) (sites : List (String × Rule)) (targetUrl hostname : String)
    (hne : targetUrl ≠ "") (hp : env.urlParseHostname targetUrl = .ok (some hostname))
    (hamp : (includes hostname "cdn.ampproject.org" || includes hostname "google.com/amp")
      = true) :
    proxyWith env sites (.text targetUrl) =
      match decodeURIComponent (ampEmbedded targetUrl) with
      | some decodedUrl => .redirect decodedUrl
      | none => .serverError "Proxy error: URI malformed" := by
  rw [proxyWith_text env sites targetUrl hne, route_of_hostname env sites targetUrl hostname hp,
    if_neg (not_nofix_of_amp hostname hamp), if_pos hamp]
  cases decodeURIComponent (ampEmbedded targetUrl) <;> rfl

theorem string_append_ne_empty (a b : String) (ha : a ≠ "") : a ++ b ≠ "" := by
  intro h
  have := congrArg String.data h
  simp only [String.data_append, List.append_eq_nil] at this
  exact ha (String.ext this.1)

/-! ## AMP unwrapping -/

/-- C6, as stated, fails: for the target `https://cdn.ampproject.org/c/s/example.com%2Farticle`
the handler redirects to `example.com/article`, which lacks the scheme of the original URL. -/
theorem amp_unwrap_drops_scheme :
    proxy (samplePlatform ⟨[], none, "body"⟩)
        (.text "https://cdn.ampproject.org/c/s/example.com%2Farticle")
      = .redirect "example.com/article" ∧
    proxy (samplePlatform ⟨[], none, "body"⟩)
        (.text "https://cdn.ampproject.org/c/s/example.com%2Farticle")
      ≠ .redirect "https://example.com/article" := by
  decide

/-- C6, amended: for every non-empty text `p` (host and path of the original URL, without
scheme), the target `https://cdn.ampproject.org/c/s/` followed by the percent-encoding of `p`
yields `status: redirect` with `redirectedUrl` equal to `p`. -/
theorem amp_unwrap_round_trip (env : Env) (sites : List (String × Rule)) (p hostname : String)
    (hp : p ≠ "")
    (hparse : env.urlParseHostname ("https://cdn.ampproject.org/c/s/" ++ encodeURIComponent p)
      = .ok (some hostname))
    (hamp : includes hostname "cdn.ampproject.org" = true) :
    proxyWith env sites (.text ("https://cdn.ampproject.org/c/s/" ++ encodeURIComponent p))
      = .redirect p := by
  rw [proxyWith_amp env sites _ hostname (string_append_ne_empty _ _ (by decide)) hparse
    (by simp [hamp]), ampEmbedded_amp_cache p hp, decodeURIComponent_encodeURIComponent]

/-- C6, amended, at `p = example.com/article` on the sample platform: the target is
`https://cdn.ampproject.org/c/s/example.com%2Farticle`. -/
theorem amp_unwrap_round_trip_witness :
    "https://cdn.ampproject.org/c/s/" ++ encodeURIComponent "example.com/article"
        = "https://cdn.ampproject.org/c/s/example.com%2Farticle" ∧
      proxyWith (samplePlatform ⟨[], none, "body"⟩) defaultSites
        (.text ("https://cdn.ampproject.org/c/s/" ++ encodeURIComponent "example.com/article"))
        = .redirect "example.com/article" :=
  ⟨by decide, amp_unwrap_round_trip (samplePlatform ⟨[], none, "body"⟩) defaultSites
    "example.com/article" "cdn.ampproject.org" (by decide) rfl (by decide)⟩

theorem decodeGo_of_no_percent (s : List Char) (h : '%' ∉ s) :
    decodeGo s .idle none = some s := by
  induction s with
  | nil => simp [decodeGo]
  | cons c s ih =>
    have hc : c ≠ '%' := fun e => h (e ▸ List.mem_cons_self _ _)
    have hs : '%' ∉ s := fun e => h (List.mem_cons_of_mem _ e)
    simp [decodeGo, hc, ih hs]

theorem decodeURIComponent_of_no_percent (s : String) (h : includes s "%" = false) :
    decodeURIComponent s = some s := by
  unfold decodeURIComponent
  rw [decodeGo_of_no_percent s.data (not_mem_of_includesL_false '%' s.data h)]
  rfl

theorem ampEmbedded_of_no_marker (targetUrl : String) (h : includes targetUrl "/s/" = false) :
    ampEmbedded targetUrl = targetUrl := by
  unfold ampEmbedded
  rw [split_of_not_includes targetUrl "/s/" h]
  rfl

/-- C7, as stated, fails: the target `https://cdn.ampproject.org/v0/a%20b.js` has no `/s/`,
and the redirect the handler returns has the escape `%20` decoded to a blank. -/
theorem amp_fallback_decodes_escapes :
    includes "https://cdn.ampproject.org/v0/a%20b.js" "/s/" = false ∧
      proxy (samplePlatform ⟨[], none, "body"⟩) (.text "https://cdn.ampproject.org/v0/a%20b.js")
        = .redirect "https://cdn.ampproject.org/v0/a b.js" ∧
      proxy (samplePlatform ⟨[], none, "body"⟩) (.text "https://cdn.ampproject.org/v0/a%20b.js")
        ≠ .redirect "https://cdn.ampproject.org/v0/a%20b.js" := by
  decide

/-- C7, amended: for a target URL whose hostname contains `cdn.ampproject.org` and whose
text contains no `/s/`, the handler answers with the percent-decoding of the whole target
URL: `status: redirect` with the decoded text, or the 500 response `URI malformed` when the
text does not decode. When the target contains no `%` the redirect is the target URL
unchanged. -/
theorem amp_fallback (env : Env) (sites : List (String × Rule)) (targetUrl hostname : String)
    (hne : targetUrl ≠ "") (hparse : env.urlParseHostname targetUrl = .ok (some hostname))
    (hamp : includes hostname "cdn.ampproject.org" = true)
    (hmarker : includes targetUrl "/s/" = false) :
    (proxyWith env sites (.text targetUrl) =
      match decodeURIComponent targetUrl with
      | some decodedUrl => .redirect decodedUrl
      | none => .serverError "Proxy error: URI malformed") ∧
    (includes targetUrl "%" = false →
      proxyWith env sites (.text targetUrl) = .redirect targetUrl) := by
  have h := proxyWith_amp env sites targetUrl hostname hne hparse (by simp [hamp])
  rw [ampEmbedded_of_no_marker targetUrl hmarker] at h
  refine ⟨h, fun hpct => ?_⟩
  rw [h, decodeURIComponent_of_no_percent targetUrl hpct]

/-- C7, amended, at `https://cdn.ampproject.org/v0/amp.js` on the sample platform. -/
theorem amp_fallback_witness :
    (proxyWith (samplePlatform ⟨[], none, "body"⟩) defaultSites
        (.text "https://cdn.ampproject.org/v0/amp.js") =
      match decodeURIComponent "https://cdn.ampproject.org/v0/amp.js" with
      | some decodedUrl => .redirect decodedUrl
      | none => .serverError "Proxy error: URI malformed") ∧
    (includes "https://cdn.ampproject.org/v0/amp.js" "%" = false →
      proxyWith (samplePlatform ⟨[], none, "body"⟩) defaultSites
        (.text "https://cdn.ampproject.org/v0/amp.js")
        = .redirect "https://cdn.ampproject.org/v0/amp.js") :=
  amp_fallback (samplePlatform ⟨[], none, "body"⟩) defaultSites
    "https://cdn.ampproject.org/v0/amp.js" "cdn.ampproject.org" (by decide) rfl (by decide)
    (by decide)

/-! ## Sign-in stripping -/

theorem removeSignInL_first (p q : List Char) (sep : Char) (hsep : sep = '?' ∨ sep = '&')
    (hp : includesL p "sign-in".data = false) :
    removeSignInL (p ++ sep :: ("sign-in=1".data ++ q)) = p ++ q := by
  induction p with
  | nil =>
    have h1 : isPrefixB "sign-in=1".data ("sign-in=1".data ++ q) = true :=
      isPrefixB_self_append _ _
    have h2 : ("sign-in=1".data ++ q).drop 9 = q := rfl
    show (if (sep = '?' ∨ sep = '&') ∧
        isPrefixB "sign-in=1".data ("sign-in=1".data ++ q) = true
      then ("sign-in=1".data ++ q).drop 9
      else sep :: removeSignInL ("sign-in=1".data ++ q)) = q
    rw [if_pos ⟨hsep, h1⟩, h2]
  | cons c p ih =>
    have h' := includesL_cons_false c p "sign-in".data hp
    have hno : ¬ ((c = '?' ∨ c = '&') ∧
        isPrefixB "sign-in=1".data (p ++ sep :: ("sign-in=1".data ++ q)) = true) := by
      rintro ⟨_, hpre⟩
      have hsepmem : sep ∉ "sign-in=1".data := by
        rcases hsep with rfl | rfl <;> decide
      have h1 := isPrefixB_before_foreign _ p _ sep hsepmem hpre
      have h2 : isPrefixB "sign-in".data p = true :=
        isPrefixB_of_append "sign-in".data "=1".data p h1
      have h3 := includesL_of_isPrefixB _ _ h2
      rw [h'.2] at h3
      exact absurd h3 (by decide)
    show (if (c = '?' ∨ c = '&') ∧
        isPrefixB "sign-in=1".data (p ++ sep :: ("sign-in=1".data ++ q)) = true
      then (p ++ sep :: ("sign-in=1".data ++ q)).drop 9
      else c :: removeSignInL (p ++ sep :: ("sign-in=1".data ++ q))) = c :: (p ++ q)
    rw [if_neg hno, ih h'.2]

theorem includes_sign_in (p q : List Char) (sep : Char) :
    includesL (p ++ sep :: ("sign-in=1".data ++ q)) "sign-in".data = true := by
  have h : includesL (sep :: ("sign-in=1".data ++ q)) "sign-in".data = true := by
    have hpre : isPrefixB "sign-in".data ("sign-in=1".data ++ q) = true := rfl
    show (isPrefixB "sign-in".data (sep :: ("sign-in=1".data ++ q))
      || includesL ("sign-in=1".data ++ q) "sign-in".data) = true
    rw [includesL_of_isPrefixB _ _ hpre, Bool.or_true]
  exact includesL_append_left p _ _ h

/-- C8 at the failing input `https://inkl.com/story?sign-in=1&ref=x`: the parameter is first
and another one follows, and the redirect is `https://inkl.com/story&ref=x`, where the
remaining parameter is introduced by `&` and no `?` is left. -/
theorem sign_in_strip_leaves_ampersand :
    proxy (samplePlatform ⟨[], none, "body"⟩) (.text "https://inkl.com/story?sign-in=1&ref=x")
        = .redirect "https://inkl.com/story&ref=x" ∧
      includes "https://inkl.com/story&ref=x" "?" = false := by
  decide

/-- Where the sign-in stripper does what is asked: for a target URL on `inkl.com` of the form
`p ++ sep ++ "sign-in=1" ++ q` with `sep` one of `?`, `&`, with no `sign-in` in `p`, and with
the parameter either introduced by `&` or last in the URL, the handler returns
`status: redirect` with `redirectedUrl` equal to `p ++ q`: the parameter and the separator
before it are deleted and nothing else changes. -/
theorem sign_in_stripped (env : Env) (sites : List (String × Rule)) (p q : String) (sep : Char)
    (hsep : sep = '?' ∨ sep = '&')
    (hparse : env.urlParseHostname (p ++ String.singleton sep ++ "sign-in=1" ++ q)
      = .ok (some "inkl.com"))
    (hp : includes p "sign-in" = false)
    (_hform : sep = '&' ∨ q = "") :
    proxyWith env sites (.text (p ++ String.singleton sep ++ "sign-in=1" ++ q))
      = .redirect (p ++ q) := by
  have hdata : (p ++ String.singleton sep ++ "sign-in=1" ++ q).data
      = p.data ++ sep :: ("sign-in=1".data ++ q.data) := by
    simp [String.data_append, String.singleton]
  have hne : p ++ String.singleton sep ++ "sign-in=1" ++ q ≠ "" := by
    intro h
    have := congrArg String.data h
    rw [hdata] at this
    simp at this
  have hinc : includes (p ++ String.singleton sep ++ "sign-in=1" ++ q) "sign-in" = true := by
    unfold includes
    rw [hdata]
    exact includes_sign_in p.data q.data sep
  have hrem : removeSignIn (p ++ String.singleton sep ++ "sign-in=1" ++ q) = p ++ q := by
    unfold removeSignIn
    rw [hdata, removeSignInL_first p.data q.data sep hsep hp]
    rfl
  rw [proxyWith_text env sites _ hne, route_of_hostname env sites _ "inkl.com" hparse,
    if_neg (by decide), if_neg (by decide), if_pos ⟨rfl, hinc⟩, hrem]

/-- The sign-in stripper at `https://inkl.com/story?sign-in=1` on the sample platform: the
redirect is `https://inkl.com/story`. -/
theorem sign_in_stripped_witness :
    "https://inkl.com/story" ++ String.singleton '?' ++ "sign-in=1" ++ ""
        = "https://inkl.com/story?sign-in=1" ∧
      proxyWith (samplePlatform ⟨[], none, "body"⟩) defaultSites
        (.text ("https://inkl.com/story" ++ String.singleton '?' ++ "sign-in=1" ++ ""))
        = .redirect ("https://inkl.com/story" ++ "") :=
  ⟨by decide, sign_in_stripped (samplePlatform ⟨[], none, "body"⟩) defaultSites
    "https://inkl.com/story" "" '?' (Or.inl rfl) rfl (by decide) (Or.inr rfl)⟩

/-! ## The script pattern and its global replacement -/

theorem skipToGt_length (s r : List Char) (h : skipToGt s = some r) : r.length < s.length := by
  induction s with
  | nil => simp [skipToGt] at h
  | cons c cs ih =>
    simp only [skipToGt] at h
    split at h
    · cases h
      simp
    · have := ih h
      simp only [List.length_cons]
      omega

theorem skipToClose_length (s r : List Char) (h : skipToClose s = some r) :
    r.length < s.length := by
  induction s with
  | nil => simp [skipToClose] at h
  | cons c cs ih =>
    simp only [skipToClose] at h
    split at h
    · cases h
      simp only [List.length_drop, List.length_cons]
      omega
    · have := ih h
      simp only [List.length_cons]
      omega

theorem scriptMatch_length (s r : List Char) (h : scriptMatch s = some r) :
    r.length < s.length := by
  unfold scriptMatch at h
  split at h
  · cases h1 : skipToGt (s.drop 7) with
    | none => simp [h1] at h
    | some r1 =>
      rw [h1] at h
      have ha := skipToGt_length _ _ h1
      have hb := skipToClose_length r1 r h
      simp only [List.length_drop] at ha
      omega
  · cases h

theorem stripFuel_eq (n m : Nat) (s : List Char) (hn : s.length ≤ n) (hm : s.length ≤ m) :
    stripFuel n s = stripFuel m s := by
  induction n generalizing m s with
  | zero =>
    have : s = [] := List.length_eq_zero.mp (by omega)
    subst this
    cases m <;> rfl
  | succ n ih =>
    cases m with
    | zero =>
      have : s = [] := List.length_eq_zero.mp (by omega)
      subst this
      rfl
    | succ m =>
      cases s with
      | nil => rfl
      | cons c cs =>
        simp only [stripFuel]
        cases hmatch : scriptMatch (c :: cs) with
        | none =>
          simp only [List.length_cons] at hn hm
          rw [ih m cs (by omega) (by omega)]
        | some rest =>
          have hl := scriptMatch_length _ _ hmatch
          simp only [List.length_cons] at hn hm hl
          exact ih m rest (by omega) (by omega)

theorem stripScriptsL_nil : stripScriptsL [] = [] := rfl

theorem stripScriptsL_cons (c : Char) (cs : List Char) :
    stripScriptsL (c :: cs) =
      match scriptMatch (c :: cs) with
      | some rest => stripScriptsL rest
      | none => c :: stripScriptsL cs := by
  unfold stripScriptsL
  simp only [List.length_cons, stripFuel]
  cases hmatch : scriptMatch (c :: cs) with
  | none => rfl
  | some rest =>
    have hl := scriptMatch_length _ _ hmatch
    simp only [List.length_cons] at hl
    exact stripFuel_eq _ _ rest (by omega) (le_refl _)

theorem stripScriptsL_of_clean (s : List Char) (h : hasScriptMatchL s = false) :
    stripScriptsL s = s := by
  induction s with
  | nil => rfl
  | cons c cs ih =>
    simp only [hasScriptMatchL, Bool.or_eq_false_iff] at h
    have hnone : scriptMatch (c :: cs) = none := by
      cases hm : scriptMatch (c :: cs) with
      | none => rfl
      | some r => rw [hm] at h; simp at h
    rw [stripScriptsL_cons, hnone]
    simp only
    rw [ih h.2]

theorem stripScriptsL_length (n : Nat) (s : List Char) (hn : s.length ≤ n) :
    (stripScriptsL s).length ≤ s.length ∧
      (hasScriptMatchL s = true → (stripScriptsL s).length < s.length) := by
  induction n generalizing s with
  | zero =>
    have : s = [] := List.length_eq_zero.mp (by omega)
    subst this
    simp [stripScriptsL_nil, hasScriptMatchL]
  | succ n ih =>
    cases s with
    | nil => simp [stripScriptsL_nil, hasScriptMatchL]
    | cons c cs =>
      rw [stripScriptsL_cons]
      simp only [List.length_cons] at hn
      cases hmatch : scriptMatch (c :: cs) with
      | none =>
        have h1 := ih cs (by omega)
        simp only [List.length_cons, hasScriptMatchL, hmatch, Option.isSome_none,
          Bool.false_or]
        exact ⟨by omega, fun h => by have := h1.2 h; omega⟩
      | some rest =>
        have hl := scriptMatch_length _ _ hmatch
        simp only [List.length_cons] at hl
        have h1 := ih rest (by omega)
        simp only [List.length_cons]
        exact ⟨by omega, fun _ => by omega⟩

theorem stripScriptsL_eq_self_iff (s : List Char) :
    stripScriptsL s = s ↔ hasScriptMatchL s = false := by
  constructor
  · intro h
    cases hm : hasScriptMatchL s with
    | false => rfl
    | true =>
      have := (stripScriptsL_length s.length s (le_refl _)).2 hm
      rw [h] at this
      omega
  · exact stripScriptsL_of_clean s

theorem stripScripts_eq_self_iff (s : String) :
    stripScripts s = s ↔ hasScriptMatch s = false := by
  unfold stripScripts hasScriptMatch
  rw [← stripScriptsL_eq_self_iff]
  constructor
  · intro h
    exact congrArg String.data h
  · intro h
    rw [h]

/-! ## The script blocking loop -/

theorem blockStep_eq (targetUrl hostname : String) (state : List String × String) (rule : Rule) :
    blockStep targetUrl hostname state rule =
      (state.1 ++ List.replicate
          ((regexFires rule targetUrl).toNat + (generalFires rule targetUrl hostname).toNat)
          targetUrl,
        stripScripts^[(regexFires rule targetUrl).toNat
          + (generalFires rule targetUrl hostname).toNat] state.2) := by
  unfold blockStep regexFires generalFires
  cases rule.block_regex with
  | none =>
    cases rule.block_regex_general with
    | none => simp
    | some g =>
      cases hg : (g.test targetUrl && notExcluded rule hostname) <;> simp [hg]
  | some r =>
    cases hr : r.test targetUrl <;>
    cases rule.block_regex_general with
    | none => simp [hr]
    | some g =>
      cases hg : (g.test targetUrl && notExcluded rule hostname) <;>
        simp [hr, hg, List.replicate_succ]

theorem foldl_blockStep (rules : List Rule) (targetUrl hostname : String)
    (state : List String × String) :
    rules.foldl (blockStep targetUrl hostname) state =
      (state.1 ++ List.replicate
          ((rules.map (fun r =>
            (regexFires r targetUrl).toNat + (generalFires r targetUrl hostname).toNat)).sum)
          targetUrl,
        stripScripts^[(rules.map (fun r =>
            (regexFires r targetUrl).toNat + (generalFires r targetUrl hostname).toNat)).sum]
          state.2) := by
  induction rules generalizing state with
  | nil => simp
  | cons r rules ih =>
    rw [List.foldl_cons, ih, blockStep_eq]
    simp only [List.map_cons, List.sum_cons, List.append_assoc]
    refine Prod.ext ?_ ?_
    · simp only [List.replicate_add]
    · simp only
      rw [Nat.add_comm (_ + _) (List.sum _)]
      simp only [Function.iterate_add_apply]

theorem scriptBlocking_eq (sites : List (String × Rule)) (targetUrl hostname content : String) :
    scriptBlocking sites targetUrl hostname content =
      (List.replicate (fireCount sites targetUrl hostname) targetUrl,
        stripScripts^[fireCount sites targetUrl hostname] content) := by
  unfold scriptBlocking fireCount
  rw [foldl_blockStep]
  simp only [List.map_map, List.nil_append]
  rfl

/-! ## Truncation does not create a script element -/

theorem isPrefixCI16_append_right (t : List Char) (x y : List Nat) (h : isPrefixCI16 t x = true) :
    isPrefixCI16 t (x ++ y) = true := by
  induction t generalizing x with
  | nil => simp [isPrefixCI16]
  | cons a t ih =>
    cases x with
    | nil => simp [isPrefixCI16] at h
    | cons b x =>
      simp only [isPrefixCI16, Bool.and_eq_true, List.cons_append] at h ⊢
      exact ⟨h.1, ih x h.2⟩

theorem isPrefixCI16_length (t : List Char) (x : List Nat) (h : isPrefixCI16 t x = true) :
    t.length ≤ x.length := by
  induction t generalizing x with
  | nil => simp
  | cons a t ih =>
    cases x with
    | nil => simp [isPrefixCI16] at h
    | cons b x =>
      simp only [isPrefixCI16, Bool.and_eq_true] at h
      have := ih x h.2
      simp only [List.length_cons]
      omega

theorem isPrefixCI16_before_foreign (t : List Char) (x d : List Nat)
    (hd : ∀ a ∈ t, ∀ c ∈ d, ciEq16 a c = false) (h : isPrefixCI16 t (x ++ d) = true) :
    isPrefixCI16 t x = true := by
  induction t generalizing x with
  | nil => simp [isPrefixCI16]
  | cons a t ih =>
    have hd' : ∀ a' ∈ t, ∀ c ∈ d, ciEq16 a' c = false :=
      fun a' ha' => hd a' (List.mem_cons_of_mem _ ha')
    cases x with
    | nil =>
      cases d with
      | nil => simp [isPrefixCI16] at h
      | cons c d =>
        have := hd a (List.mem_cons_self _ _) c (List.mem_cons_self _ _)
        simp [isPrefixCI16, this] at h
    | cons b x =>
      simp only [isPrefixCI16, Bool.and_eq_true, List.cons_append] at h ⊢
      exact ⟨h.1, ih x hd' h.2⟩

theorem skipToGt16_append (x d r : List Nat) (hd : skipToGt16 d = none)
    (h : skipToGt16 (x ++ d) = some r) :
    ∃ r', r = r' ++ d ∧ ∀ u, skipToGt16 (x ++ u) = some (r' ++ u) := by
  induction x with
  | nil =>
    rw [List.nil_append, hd] at h
    cases h
  | cons c x ih =>
    simp only [List.cons_append, skipToGt16] at h ⊢
    split at h
    · rename_i hc
      cases h
      exact ⟨x, rfl, fun u => by simp [hc]⟩
    · rename_i hc
      obtain ⟨r', hr, hu⟩ := ih h
      exact ⟨r', hr, fun u => by simp [hc, hu u]⟩

theorem isPrefixCI16_append_of_le (t : List Char) (x y : List Nat) (h : t.length ≤ x.length) :
    isPrefixCI16 t (x ++ y) = isPrefixCI16 t x := by
  induction t generalizing x with
  | nil => simp [isPrefixCI16]
  | cons a t ih =>
    cases x with
    | nil => simp at h
    | cons b x =>
      simp only [List.length_cons] at h
      show (ciEq16 a b && isPrefixCI16 t (x ++ y)) = (ciEq16 a b && isPrefixCI16 t x)
      rw [ih x (by omega)]

theorem skipToClose16_append (x d r : List Nat) (hd : skipToClose16 d = none)
    (hfor : ∀ a ∈ "</script>".data, ∀ c ∈ d, ciEq16 a c = false)
    (h : skipToClose16 (x ++ d) = some r) :
    ∃ r', r = r' ++ d ∧ r'.length + 9 ≤ x.length ∧
      ∀ u, skipToClose16 (x ++ u) = some (r' ++ u) := by
  induction x with
  | nil =>
    rw [List.nil_append, hd] at h
    cases h
  | cons c x ih =>
    have hstep : ∀ y, skipToClose16 (c :: (x ++ y)) =
        if isPrefixCI16 "</script>".data (c :: (x ++ y)) = true
        then some ((x ++ y).drop 8) else skipToClose16 (x ++ y) := fun _ => rfl
    have h9 : "</script>".data.length = 9 := rfl
    by_cases hpre : isPrefixCI16 "</script>".data (c :: (x ++ d)) = true
    · have hx : isPrefixCI16 "</script>".data (c :: x) = true :=
        isPrefixCI16_before_foreign _ (c :: x) d hfor hpre
      have hlen := isPrefixCI16_length _ _ hx
      have hlen' : 8 ≤ x.length := by
        simp only [List.length_cons, h9] at hlen
        omega
      rw [List.cons_append, hstep d, if_pos hpre] at h
      have hr : r = (x ++ d).drop 8 := (Option.some.inj h).symm
      refine ⟨x.drop 8, ?_, ?_, fun u => ?_⟩
      · rw [hr, List.drop_append_of_le_length hlen']
      · simp only [List.length_drop, List.length_cons]
        omega
      · have hu : isPrefixCI16 "</script>".data (c :: (x ++ u)) = true :=
          isPrefixCI16_append_right _ (c :: x) u hx
        rw [List.cons_append, hstep u, if_pos hu, List.drop_append_of_le_length hlen']
    · rw [List.cons_append, hstep d, if_neg hpre] at h
      obtain ⟨r', hr, hlen, hu⟩ := ih h
      refine ⟨r', hr, ?_, fun u => ?_⟩
      · simp only [List.length_cons]
        omega
      · have hle : "</script>".data.length ≤ (c :: x).length := by
          simp only [List.length_cons, h9]
          omega
        have e1 := isPrefixCI16_append_of_le "</script>".data (c :: x) u hle
        have e2 := isPrefixCI16_append_of_le "</script>".data (c :: x) d hle
        have hpu : ¬ isPrefixCI16 "</script>".data (c :: (x ++ u)) = true := by
          rw [← List.cons_append, e1, ← e2]
          exact hpre
        rw [List.cons_append, hstep u, if_neg hpu, hu u]

theorem scriptMatch16_append (x d r : List Nat) (hgt : skipToGt16 d = none)
    (hclose : skipToClose16 d = none)
    (hopen : ∀ a ∈ "<script".data, ∀ c ∈ d, ciEq16 a c = false)
    (hfor : ∀ a ∈ "</script>".data, ∀ c ∈ d, ciEq16 a c = false)
    (h : scriptMatch16 (x ++ d) = some r) :
    ∀ u, (scriptMatch16 (x ++ u)).isSome = true := by
  intro u
  have h7 : "<script".data.length = 7 := rfl
  unfold scriptMatch16 at h ⊢
  by_cases hpre : isPrefixCI16 "<script".data (x ++ d) = true
  · rw [if_pos hpre] at h
    have hx := isPrefixCI16_before_foreign _ x d hopen hpre
    have hlen := isPrefixCI16_length _ _ hx
    rw [h7] at hlen
    rw [if_pos (isPrefixCI16_append_right _ x u hx)]
    rw [List.drop_append_of_le_length hlen] at h ⊢
    cases hg : skipToGt16 (x.drop 7 ++ d) with
    | none => rw [hg] at h; cases h
    | some r1 =>
      rw [hg] at h
      obtain ⟨r1', hr1, hu1⟩ := skipToGt16_append _ d r1 hgt hg
      rw [hu1 u]
      subst hr1
      obtain ⟨r', _, _, hu2⟩ := skipToClose16_append r1' d r hclose hfor h
      simp only [Option.some_bind]
      rw [hu2 u]
      rfl
  · rw [if_neg hpre] at h
    cases h

theorem hasScriptMatch16_append (x d : List Nat) (hgt : skipToGt16 d = none)
    (hclose : skipToClose16 d = none)
    (hopen : ∀ a ∈ "<script".data, ∀ c ∈ d, ciEq16 a c = false)
    (hfor : ∀ a ∈ "</script>".data, ∀ c ∈ d, ciEq16 a c = false)
    (hd : hasScriptMatch16 d = false)
    (h : hasScriptMatch16 (x ++ d) = true) (u : List Nat) :
    hasScriptMatch16 (x ++ u) = true := by
  induction x with
  | nil =>
    rw [List.nil_append, hd] at h
    cases h
  | cons c x ih =>
    have h' : ((scriptMatch16 (c :: (x ++ d))).isSome || hasScriptMatch16 (x ++ d)) = true := h
    show ((scriptMatch16 (c :: (x ++ u))).isSome || hasScriptMatch16 (x ++ u)) = true
    rw [Bool.or_eq_true] at h' ⊢
    rcases h' with h' | h'
    · left
      cases hm : scriptMatch16 (c :: (x ++ d)) with
      | none => rw [hm] at h'; cases h'
      | some r =>
        exact scriptMatch16_append (c :: x) d r hgt hclose hopen hfor hm u
    · right
      exact ih h'

/-! ## Code units against characters -/

theorem char_eq_of_toNat_eq (a c : Char) (h : c.toNat = a.toNat) : c = a := by
  rw [← Char.ofNat_toNat c, ← Char.ofNat_toNat a, h]

theorem beq_toNat (a c : Char) : (c.toNat == a.toNat) = (c == a) := by
  by_cases h : c = a
  · subst h
    simp
  · have e : ¬ c.toNat = a.toNat := fun e => h (char_eq_of_toNat_eq a c e)
    rw [beq_eq_false_iff_ne.mpr e, beq_eq_false_iff_ne.mpr h]

theorem ciEq16_toNat (a c : Char) : ciEq16 a c.toNat = ciEq a c := by
  unfold ciEq16 ciEq
  rw [beq_toNat, beq_toNat]

theorem ciEq16_of_large (a : Char) (u : Nat) (ha : a.toNat < 128) (hau : a.toUpper.toNat < 128)
    (hu : 128 ≤ u) : ciEq16 a u = false := by
  unfold ciEq16
  have e1 : ¬ u = a.toNat := by omega
  have e2 : ¬ u = a.toUpper.toNat := by omega
  simp [e1, e2]

theorem ciEq_of_large (a c : Char) (ha : a.toNat < 128) (hau : a.toUpper.toNat < 128)
    (hc : 128 ≤ c.toNat) : ciEq a c = false := by
  rw [← ciEq16_toNat]
  exact ciEq16_of_large a c.toNat ha hau hc

theorem toNat_lt_of_ciEq (a c : Char) (ha : a.toNat < 128) (hau : a.toUpper.toNat < 128)
    (h : ciEq a c = true) : c.toNat < 128 := by
  by_cases hc : c.toNat < 128
  · exact hc
  · rw [ciEq_of_large a c ha hau (by omega)] at h
    cases h

/-- A pattern whose characters, and their upper-case forms, are ASCII. -/
theorem ascii_open : ∀ a ∈ "<script".data, a.toNat < 128 ∧ a.toUpper.toNat < 128 := by decide

theorem ascii_close : ∀ a ∈ "</script>".data, a.toNat < 128 ∧ a.toUpper.toNat < 128 := by
  decide

theorem utf16_cons_small (c : Char) (s : List Char) (h : c.toNat < 65536) :
    (c :: s).flatMap utf16Units = c.toNat :: s.flatMap utf16Units := by
  simp [List.flatMap_cons, utf16Units, h]

theorem utf16_cons_large (c : Char) (s : List Char) (h : ¬ c.toNat < 65536) :
    (c :: s).flatMap utf16Units =
      (55296 + (c.toNat - 65536) / 1024) :: (56320 + (c.toNat - 65536) % 1024)
        :: s.flatMap utf16Units := by
  simp [List.flatMap_cons, utf16Units, h]

theorem isPrefixCI16_utf16 (p s : List Char)
    (hp : ∀ a ∈ p, a.toNat < 128 ∧ a.toUpper.toNat < 128) :
    isPrefixCI16 p (s.flatMap utf16Units) = isPrefixCI p s := by
  induction p generalizing s with
  | nil => simp [isPrefixCI16, isPrefixCI]
  | cons a p ih =>
    have ha := hp a (List.mem_cons_self _ _)
    have hp' : ∀ a' ∈ p, a'.toNat < 128 ∧ a'.toUpper.toNat < 128 :=
      fun a' h' => hp a' (List.mem_cons_of_mem _ h')
    cases s with
    | nil => rfl
    | cons c s =>
      by_cases hc : c.toNat < 65536
      · rw [utf16_cons_small c s hc]
        show (ciEq16 a c.toNat && isPrefixCI16 p (s.flatMap utf16Units))
          = (ciEq a c && isPrefixCI p s)
        rw [ciEq16_toNat, ih s hp']
      · rw [utf16_cons_large c s hc]
        show (ciEq16 a _ && isPrefixCI16 p _) = (ciEq a c && isPrefixCI p s)
        rw [ciEq16_of_large a _ ha.1 ha.2 (by omega), ciEq_of_large a c ha.1 ha.2 (by omega)]
        rfl

theorem drop_utf16_of_isPrefixCI (p s : List Char)
    (hp : ∀ a ∈ p, a.toNat < 128 ∧ a.toUpper.toNat < 128) (h : isPrefixCI p s = true) :
    (s.flatMap utf16Units).drop p.length = (s.drop p.length).flatMap utf16Units := by
  induction p generalizing s with
  | nil => rfl
  | cons a p ih =>
    have ha := hp a (List.mem_cons_self _ _)
    have hp' : ∀ a' ∈ p, a'.toNat < 128 ∧ a'.toUpper.toNat < 128 :=
      fun a' h' => hp a' (List.mem_cons_of_mem _ h')
    cases s with
    | nil => simp [isPrefixCI] at h
    | cons c s =>
      simp only [isPrefixCI, Bool.and_eq_true] at h
      have hc := toNat_lt_of_ciEq a c ha.1 ha.2 h.1
      rw [utf16_cons_small c s (by omega)]
      simp only [List.length_cons, List.drop_succ_cons]
      exact ih s hp' h.2

theorem skipToGt16_utf16 (s : List Char) :
    skipToGt16 (s.flatMap utf16Units) = (skipToGt s).map (·.flatMap utf16Units) := by
  induction s with
  | nil => rfl
  | cons c s ih =>
    by_cases hc : c.toNat < 65536
    · rw [utf16_cons_small c s hc]
      by_cases hgt : c = '>'
      · subst hgt
        simp [skipToGt16, skipToGt]
      · have h62 : ¬ c.toNat = 62 := fun e => hgt (char_eq_of_toNat_eq '>' c e)
        simp only [skipToGt16, skipToGt, if_neg h62, if_neg hgt]
        exact ih
    · rw [utf16_cons_large c s hc]
      have hgt : ¬ c = '>' := by
        rintro rfl
        exact hc (by decide)
      have h1 : ¬ (55296 + (c.toNat - 65536) / 1024 = 62) := by omega
      have h2 : ¬ (56320 + (c.toNat - 65536) % 1024 = 62) := by omega
      simp only [skipToGt16, skipToGt, if_neg h1, if_neg h2, if_neg hgt]
      exact ih

theorem isPrefixCI16_cons_of_large (a : Char) (p : List Char) (u : Nat) (us : List Nat)
    (ha : a.toNat < 128 ∧ a.toUpper.toNat < 128) (hu : 128 ≤ u) :
    isPrefixCI16 (a :: p) (u :: us) = false := by
  show (ciEq16 a u && isPrefixCI16 p us) = false
  rw [ciEq16_of_large a u ha.1 ha.2 hu]
  rfl

theorem isPrefixCI_cons_of_large (a : Char) (p : List Char) (c : Char) (cs : List Char)
    (ha : a.toNat < 128 ∧ a.toUpper.toNat < 128) (hc : 128 ≤ c.toNat) :
    isPrefixCI (a :: p) (c :: cs) = false := by
  show (ciEq a c && isPrefixCI p cs) = false
  rw [ciEq_of_large a c ha.1 ha.2 hc]
  rfl

theorem skipToClose16_utf16 (s : List Char) :
    skipToClose16 (s.flatMap utf16Units) = (skipToClose s).map (·.flatMap utf16Units) := by
  induction s with
  | nil => rfl
  | cons c s ih =>
    have hstep : skipToClose (c :: s) =
        if isPrefixCI "</script>".data (c :: s) = true then some (s.drop 8)
        else skipToClose s := rfl
    have hstep16 : ∀ (u : Nat) (us : List Nat), skipToClose16 (u :: us) =
        if isPrefixCI16 "</script>".data (u :: us) = true then some (us.drop 8)
        else skipToClose16 us := fun _ _ => rfl
    by_cases hc : c.toNat < 65536
    · have hpre : isPrefixCI16 "</script>".data (c.toNat :: s.flatMap utf16Units)
          = isPrefixCI "</script>".data (c :: s) := by
        rw [← utf16_cons_small c s hc]
        exact isPrefixCI16_utf16 _ _ ascii_close
      rw [utf16_cons_small c s hc, hstep16, hstep, hpre]
      by_cases hm : isPrefixCI "</script>".data (c :: s) = true
      · rw [if_pos hm, if_pos hm]
        have htail : isPrefixCI "/script>".data s = true := by
          have : (ciEq '<' c && isPrefixCI "/script>".data s) = true := hm
          rw [Bool.and_eq_true] at this
          exact this.2
        have hdrop := drop_utf16_of_isPrefixCI "/script>".data s (by decide) htail
        have h8 : "/script>".data.length = 8 := rfl
        rw [h8] at hdrop
        rw [hdrop]
        rfl
      · rw [if_neg hm, if_neg hm]
        exact ih
    · rw [utf16_cons_large c s hc, hstep16,
        isPrefixCI16_cons_of_large '<' _ _ _ (by decide) (by omega), hstep16,
        isPrefixCI16_cons_of_large '<' _ _ _ (by decide) (by omega), hstep,
        isPrefixCI_cons_of_large '<' _ c s (by decide) (by omega)]
      simp only [Bool.false_eq_true, if_false]
      exact ih

theorem scriptMatch16_utf16 (s : List Char) :
    scriptMatch16 (s.flatMap utf16Units) = (scriptMatch s).map (·.flatMap utf16Units) := by
  unfold scriptMatch16 scriptMatch
  rw [isPrefixCI16_utf16 _ _ ascii_open]
  by_cases hm : isPrefixCI "<script".data s = true
  · rw [if_pos hm, if_pos hm]
    have hdrop := drop_utf16_of_isPrefixCI "<script".data s ascii_open hm
    have h7 : "<script".data.length = 7 := rfl
    rw [h7] at hdrop
    rw [hdrop, skipToGt16_utf16]
    cases skipToGt (s.drop 7) with
    | none => rfl
    | some r => exact skipToClose16_utf16 r
  · rw [if_neg hm, if_neg hm]
    rfl

theorem scriptMatch16_cons_of_large (u : Nat) (us : List Nat) (hu : 128 ≤ u) :
    scriptMatch16 (u :: us) = none := by
  unfold scriptMatch16
  rw [isPrefixCI16_cons_of_large '<' _ u us (by decide) hu]
  rfl

theorem hasScriptMatch16_utf16 (s : List Char) :
    hasScriptMatch16 (s.flatMap utf16Units) = hasScriptMatchL s := by
  induction s with
  | nil => rfl
  | cons c s ih =>
    have hstep : hasScriptMatchL (c :: s)
        = ((scriptMatch (c :: s)).isSome || hasScriptMatchL s) := rfl
    have hstep16 : ∀ (u : Nat) (us : List Nat), hasScriptMatch16 (u :: us)
        = ((scriptMatch16 (u :: us)).isSome || hasScriptMatch16 us) := fun _ _ => rfl
    have hm := scriptMatch16_utf16 (c :: s)
    by_cases hc : c.toNat < 65536
    · rw [utf16_cons_small c s hc] at hm ⊢
      rw [hstep16, hm, hstep, ih]
      cases scriptMatch (c :: s) <;> rfl
    · rw [utf16_cons_large c s hc] at hm ⊢
      rw [hstep16, hm, hstep16, scriptMatch16_cons_of_large _ _ (by omega), hstep, ih]
      cases scriptMatch (c :: s) <;> rfl

theorem hasScriptMatch16_utf16_string (s : String) :
    hasScriptMatch16 (utf16 s) = hasScriptMatch s :=
  hasScriptMatch16_utf16 s.data

theorem hasScriptMatch_truncated (body : String) (n : Nat)
    (h : hasScriptMatch body = false) :
    hasScriptMatch16 (substring0 body n ++ utf16 "...") = false := by
  cases hm : hasScriptMatch16 (substring0 body n ++ utf16 "...") with
  | false => rfl
  | true =>
    have := hasScriptMatch16_append ((utf16 body).take n) (utf16 "...") (by decide) (by decide)
      (by decide) (by decide) (by decide) hm ((utf16 body).drop n)
    rw [List.take_append_drop, hasScriptMatch16_utf16_string, h] at this
    cases this


/-! ## Script blocking -/

theorem fireCount_pos (sites : List (String × Rule)) (targetUrl hostname : String)
    (h : ∃ e ∈ sites, regexFires e.2 targetUrl = true ∨
      generalFires e.2 targetUrl hostname = true) :
    0 < fireCount sites targetUrl hostname := by
  unfold fireCount
  induction sites with
  | nil =>
    obtain ⟨e, he, _⟩ := h
    cases he
  | cons e0 sites ih =>
    simp only [List.map_cons, List.sum_cons]
    obtain ⟨e, he, hfire⟩ := h
    rcases List.mem_cons.mp he with rfl | hmem
    · rcases hfire with h1 | h1
      · rw [h1, Bool.toNat_true]
        omega
      · rw [h1, Bool.toNat_true]
        omega
    · have := ih ⟨e, hmem, hfire⟩
      omega

theorem fireCount_zero (sites : List (String × Rule)) (targetUrl hostname : String)
    (h : ∀ e ∈ sites, regexFires e.2 targetUrl = false ∧
      generalFires e.2 targetUrl hostname = false) :
    fireCount sites targetUrl hostname = 0 := by
  unfold fireCount
  induction sites with
  | nil => rfl
  | cons e sites ih =>
    have he := h e (List.mem_cons_self _ _)
    have hrest := ih (fun e' he' => h e' (List.mem_cons_of_mem _ he'))
    simp only [List.map_cons, List.sum_cons, he.1, he.2, Bool.toNat_false, hrest]

theorem iterate_stripScripts_of_clean (s : String)
    (h : hasScriptMatch (stripScripts s) = false) (n : Nat) :
    stripScripts^[n + 1] s = stripScripts s := by
  rw [Function.iterate_succ_apply]
  exact Function.iterate_fixed ((stripScripts_eq_self_iff _).mpr h) n

/-- C9, as stated, fails: the URL `https://cdn.poool.fr/x.js` matches the pattern of the rule
`Poool.fr`, the origin body is `nestedScriptBody`, and the returned `content` is
`<script>x</script>...` (as code units), which contains a match of the script pattern. -/
theorem script_survives_blocking :
    (∃ e ∈ defaultSites, generalFires e.2 "https://cdn.poool.fr/x.js" "cdn.poool.fr" = true) ∧
      (proxy (samplePlatform ⟨[], none, nestedScriptBody⟩)
        (.text "https://cdn.poool.fr/x.js")).result?.map (·.content)
          = some (utf16 "<script>x</script>...") ∧
      hasScriptMatch16 (utf16 "<script>x</script>...") = true := by
  decide

/-- C9, amended. (1) If the URL matches the `block_regex` of some rule, or the
`block_regex_general` of a rule that does not exclude the hostname, then `blockedScripts` is
not empty and the body has gone `n ≥ 1` times through the single-pass replacement, `n` the
number of patterns that fire; when one pass over the origin body leaves no match of the
script pattern, the rewritten body is that one pass, and neither it nor the returned
`content` contains a match. (2) If no pattern fires, the body is the origin body,
`content` is its truncation and `blockedScripts` is empty. -/
theorem script_blocking (env : Env) (sites : List (String × Rule))
    (targetUrl hostname : String) (response : OriginResponse) (r : SuccessResult)
    (hp : env.urlParseHostname targetUrl = .ok (some hostname))
    (hf : env.axiosGet targetUrl
      (prepareHeaders ((findSiteRule sites (some hostname)).1.map (·.2)) env.mathRandom)
        = .ok response)
    (hs : proxyWith env sites (.text targetUrl) = .success r) :
    ((∃ e ∈ sites, regexFires e.2 targetUrl = true ∨
        generalFires e.2 targetUrl hostname = true) →
      r.blockedScripts ≠ [] ∧
      0 < fireCount sites targetUrl hostname ∧
      (scriptBlocking sites targetUrl hostname response.data).2
        = stripScripts^[fireCount sites targetUrl hostname] response.data ∧
      (hasScriptMatch (stripScripts response.data) = false →
        (scriptBlocking sites targetUrl hostname response.data).2 = stripScripts response.data ∧
        hasScriptMatch (scriptBlocking sites targetUrl hostname response.data).2 = false ∧
        r.content = substring0 (stripScripts response.data) 500 ++ utf16 "..." ∧
        hasScriptMatch16 r.content = false)) ∧
    ((∀ e ∈ sites, regexFires e.2 targetUrl = false ∧
        generalFires e.2 targetUrl hostname = false) →
      (scriptBlocking sites targetUrl hostname response.data).2 = response.data ∧
      r.content = substring0 response.data 500 ++ utf16 "..." ∧
      r.blockedScripts = []) := by
  obtain ⟨resp, hresp, hr⟩ := proxyWith_success_inv env sites targetUrl hostname r hp hs
  rw [hf] at hresp
  cases hresp
  have hcontent : r.content =
      substring0 (scriptBlocking sites targetUrl hostname response.data).2 500
        ++ utf16 "..." := by
    rw [hr]
    rfl
  have hblocked : r.blockedScripts =
      (scriptBlocking sites targetUrl hostname response.data).1 := by
    rw [hr]
    rfl
  have h2 : (scriptBlocking sites targetUrl hostname response.data).2
      = stripScripts^[fireCount sites targetUrl hostname] response.data := by
    rw [scriptBlocking_eq]
  have h1 : (scriptBlocking sites targetUrl hostname response.data).1
      = List.replicate (fireCount sites targetUrl hostname) targetUrl := by
    rw [scriptBlocking_eq]
  rw [h2] at hcontent
  rw [h1] at hblocked
  constructor
  · intro hfire
    have hpos := fireCount_pos sites targetUrl hostname hfire
    obtain ⟨n, hn⟩ : ∃ n, fireCount sites targetUrl hostname = n + 1 :=
      ⟨fireCount sites targetUrl hostname - 1, by omega⟩
    refine ⟨?_, hpos, h2, fun hclean => ?_⟩
    · rw [hblocked, hn]
      simp [List.replicate_succ]
    · have hone : stripScripts^[fireCount sites targetUrl hostname] response.data
          = stripScripts response.data := by
        rw [hn]
        exact iterate_stripScripts_of_clean response.data hclean n
      rw [hone] at hcontent h2
      refine ⟨h2, ?_, hcontent, ?_⟩
      · rw [h2]
        exact hclean
      · rw [hcontent]
        exact hasScriptMatch_truncated _ 500 hclean
  · intro hnone
    have hzero := fireCount_zero sites targetUrl hostname hnone
    rw [hzero] at hcontent hblocked h2
    exact ⟨h2, hcontent, hblocked⟩

/-- C9, amended, on the sample platform with the shipped table: the URL
`https://cdn.poool.fr/x.js` fires the pattern of `Poool.fr`, the origin body
`a<script>1</script>b` is clean after one pass, and the returned content `ab...` has no
match. -/
theorem script_blocking_witness :
    (["https://cdn.poool.fr/x.js"] : List String) ≠ [] ∧
      0 < fireCount defaultSites "https://cdn.poool.fr/x.js" "cdn.poool.fr" ∧
      (scriptBlocking defaultSites "https://cdn.poool.fr/x.js" "cdn.poool.fr"
          "a<script>1</script>b").2
        = stripScripts^[fireCount defaultSites "https://cdn.poool.fr/x.js" "cdn.poool.fr"]
          "a<script>1</script>b" ∧
      (hasScriptMatch (stripScripts "a<script>1</script>b") = false →
        (scriptBlocking defaultSites "https://cdn.poool.fr/x.js" "cdn.poool.fr"
            "a<script>1</script>b").2 = stripScripts "a<script>1</script>b" ∧
        hasScriptMatch (scriptBlocking defaultSites "https://cdn.poool.fr/x.js" "cdn.poool.fr"
            "a<script>1</script>b").2 = false ∧
        utf16 "ab..." = substring0 (stripScripts "a<script>1</script>b") 500 ++ utf16 "..." ∧
        hasScriptMatch16 (utf16 "ab...") = false) :=
  (script_blocking (samplePlatform ⟨[], none, "a<script>1</script>b"⟩) defaultSites
    "https://cdn.poool.fr/x.js" "cdn.poool.fr" ⟨[], none, "a<script>1</script>b"⟩
    ⟨"https://cdn.poool.fr/x.js", utf16 "ab...", [], none, [], ["https://cdn.poool.fr/x.js"],
      none⟩
    rfl rfl (by decide)).1 (by decide)

/-! ## Stripping twice -/

/-- C10, as stated, fails: one pass over `nestedScriptBody` leaves `<script>x</script>`, a
second pass leaves the empty string; and with the shipped table the returned content for the
same origin body differs between a URL that fires one pattern and a URL that fires two. -/
theorem strip_not_idempotent :
    stripScripts nestedScriptBody = "<script>x</script>" ∧
      stripScripts (stripScripts nestedScriptBody) = "" ∧
      stripScripts (stripScripts nestedScriptBody) ≠ stripScripts nestedScriptBody ∧
      fireCount defaultSites "https://x.cm.bloomberg.com/a" "x.cm.bloomberg.com" = 1 ∧
      fireCount defaultSites "https://x.cm.bloomberg.com/a.poool.fr/" "x.cm.bloomberg.com" = 2 ∧
      (proxy (samplePlatform ⟨[], none, nestedScriptBody⟩)
        (.text "https://x.cm.bloomberg.com/a")).result?.map (·.content)
          = some (utf16 "<script>x</script>...") ∧
      (proxy (samplePlatform ⟨[], none, nestedScriptBody⟩)
        (.text "https://x.cm.bloomberg.com/a.poool.fr/")).result?.map (·.content)
          = some (utf16 "...") := by
  decide

/-- C10, amended: a second pass of the replacement changes nothing exactly when the first
pass left no match of the script pattern; and for an origin body `s` whose first pass leaves
none, the rewritten body is `stripScripts s` whenever at least one pattern fires, whether one
or several do. -/
theorem strip_twice (s : String) :
    (stripScripts (stripScripts s) = stripScripts s
      ↔ hasScriptMatch (stripScripts s) = false) ∧
    (hasScriptMatch (stripScripts s) = false →
      ∀ (sites : List (String × Rule)) (targetUrl hostname : String),
        (scriptBlocking sites targetUrl hostname s).1 ≠ [] →
        (scriptBlocking sites targetUrl hostname s).2 = stripScripts s) := by
  refine ⟨stripScripts_eq_self_iff (stripScripts s), fun hclean sites targetUrl hostname hne => ?_⟩
  rw [scriptBlocking_eq] at hne ⊢
  cases hn : fireCount sites targetUrl hostname with
  | zero =>
    rw [hn] at hne
    exact absurd rfl hne
  | succ n => exact iterate_stripScripts_of_clean s hclean n

/-- C10, amended, at the body `a<script>1</script>b` and a URL that fires two patterns of the
shipped table. -/
theorem strip_twice_witness :
    stripScripts (stripScripts "a<script>1</script>b") = stripScripts "a<script>1</script>b" ∧
      (scriptBlocking defaultSites "https://x.cm.bloomberg.com/a.poool.fr/"
        "x.cm.bloomberg.com" "a<script>1</script>b").2 = stripScripts "a<script>1</script>b" :=
  ⟨(strip_twice "a<script>1</script>b").1.mpr (by decide),
    (strip_twice "a<script>1</script>b").2 (by decide) defaultSites
      "https://x.cm.bloomberg.com/a.poool.fr/" "x.cm.bloomberg.com" (by decide)⟩

/-! ## Header preparation -/

theorem lookup_cons_ne {α : Type} (key k : String) (v : α) (l : List (String × α))
    (h : key ≠ k) : ((k, v) :: l).lookup key = l.lookup key := by
  have hb : (key == k) = false := by simpa using h
  simp [List.lookup, hb]

theorem lookup_cons_self {α : Type} (k : String) (v : α) (l : List (String × α)) :
    ((k, v) :: l).lookup k = some v := by
  simp [List.lookup]

theorem lookup_append {α : Type} (a b : List (String × α)) (key : String) :
    (a ++ b).lookup key = ((a.lookup key).or (b.lookup key)) := by
  induction a with
  | nil => simp
  | cons x a ih =>
    obtain ⟨k, v⟩ := x
    by_cases hk : key = k
    · subst hk
      simp [List.lookup]
    · rw [List.cons_append, lookup_cons_ne key k v _ hk, lookup_cons_ne key k v _ hk, ih]

theorem lookup_userAgentHeader (rule : Rule) (key : String) (h : key ≠ "User-Agent") :
    (userAgentHeader rule).lookup key = none := by
  unfold userAgentHeader
  split
  · rw [lookup_cons_ne key _ _ _ h]
    rfl
  · split
    · rw [lookup_cons_ne key _ _ _ h]
      rfl
    · rfl

theorem lookup_refererHeader (rule : Rule) (key : String) (h : key ≠ "Referer") :
    (refererHeader rule).lookup key = none := by
  unfold refererHeader
  split
  · rw [lookup_cons_ne key _ _ _ h]
    rfl
  · split
    · rw [lookup_cons_ne key _ _ _ h]
      rfl
    · rfl

theorem lookup_forwardedForHeader (rule : Rule) (random : Nat → ℚ) (key : String)
    (h : key ≠ "X-Forwarded-For") :
    (forwardedForHeader rule random).lookup key = none := by
  unfold forwardedForHeader
  split
  · rw [lookup_cons_ne key _ _ _ h]
    rfl
  · rfl

theorem lookup_baseHeaders_none (key : String) (h1 : key ≠ "Accept")
    (h2 : key ≠ "Accept-Language") (h3 : key ≠ "Connection") :
    baseHeaders.lookup key = none := by
  unfold baseHeaders
  rw [lookup_cons_ne key _ _ _ h1, lookup_cons_ne key _ _ _ h2, lookup_cons_ne key _ _ _ h3]
  rfl

theorem lookup_prepareHeaders_base (siteRule : Option Rule) (random : Nat → ℚ) (key : String) :
    (prepareHeaders siteRule random).lookup key =
      (baseHeaders.lookup key).or
        (match siteRule with
         | none => none
         | some rule =>
           ((userAgentHeader rule).lookup key).or
             (((refererHeader rule).lookup key).or
               ((forwardedForHeader rule random).lookup key))) := by
  cases siteRule with
  | none => simp [prepareHeaders]
  | some rule =>
    simp only [prepareHeaders, lookup_append, List.append_assoc]

theorem lookup_userAgent_prepareHeaders (siteRule : Option Rule) (rnd : Nat → ℚ) :
    (prepareHeaders siteRule rnd).lookup "User-Agent" =
      (match siteRule with
       | none => none
       | some rule =>
         if rule.useragent = some "googlebot" then
           some "Mozilla/5.0 (compatible; Googlebot/2.1; +http://www.google.com/bot.html)"
         else if rule.useragent = some "bingbot" then
           some "Mozilla/5.0 (compatible; Bingbot/2.0; +http://www.bing.com/bingbot.htm)"
         else none) := by
  rw [lookup_prepareHeaders_base,
    lookup_baseHeaders_none "User-Agent" (by decide) (by decide) (by decide)]
  cases siteRule with
  | none => rfl
  | some rule =>
    simp only [Option.none_or]
    rw [lookup_refererHeader rule "User-Agent" (by decide),
      lookup_forwardedForHeader rule rnd "User-Agent" (by decide)]
    unfold userAgentHeader
    split
    · rw [lookup_cons_self]
      rfl
    · split
      · rw [lookup_cons_self]
        rfl
      · rfl

theorem lookup_referer_prepareHeaders (siteRule : Option Rule) (rnd : Nat → ℚ) :
    (prepareHeaders siteRule rnd).lookup "Referer" =
      (match siteRule with
       | none => none
       | some rule =>
         if rule.referer = some "google" then some "https://www.google.com/"
         else if rule.referer = some "facebook" then some "https://www.facebook.com/"
         else none) := by
  rw [lookup_prepareHeaders_base,
    lookup_baseHeaders_none "Referer" (by decide) (by decide) (by decide)]
  cases siteRule with
  | none => rfl
  | some rule =>
    simp only [Option.none_or]
    rw [lookup_userAgentHeader rule "Referer" (by decide),
      lookup_forwardedForHeader rule rnd "Referer" (by decide)]
    unfold refererHeader
    split
    · rw [lookup_cons_self]
      rfl
    · split
      · rw [lookup_cons_self]
        rfl
      · rfl

/-- C12: whatever rule is resolved, or none, and whatever the random source draws, the
request headers carry the three base entries; `User-Agent` is the Googlebot string exactly
when the rule has `useragent` `googlebot`, the Bingbot string exactly when it has `bingbot`,
and is absent otherwise, in particular without a rule; `Referer` is the Google home page
exactly for `referer` `google`, the Facebook home page exactly for `facebook`, and absent
otherwise. Neither depends on the random source. -/
theorem header_synthesis (siteRule : Option Rule) (random : Nat → ℚ) :
    (prepareHeaders siteRule random).lookup "Accept"
        = some "text/html,application/xhtml+xml,application/xml;q=0.9,image/webp,*/*;q=0.8" ∧
      (prepareHeaders siteRule random).lookup "Accept-Language" = some "en-US,en;q=0.5" ∧
      (prepareHeaders siteRule random).lookup "Connection" = some "keep-alive" ∧
      (prepareHeaders siteRule random).lookup "User-Agent" =
        (match siteRule with
         | none => none
         | some rule =>
           if rule.useragent = some "googlebot" then
             some "Mozilla/5.0 (compatible; Googlebot/2.1; +http://www.google.com/bot.html)"
           else if rule.useragent = some "bingbot" then
             some "Mozilla/5.0 (compatible; Bingbot/2.0; +http://www.bing.com/bingbot.htm)"
           else none) ∧
      (prepareHeaders siteRule random).lookup "Referer" =
        (match siteRule with
         | none => none
         | some rule =>
           if rule.referer = some "google" then some "https://www.google.com/"
           else if rule.referer = some "facebook" then some "https://www.facebook.com/"
           else none) ∧
      (∀ random' : Nat → ℚ,
        (prepareHeaders siteRule random').lookup "User-Agent"
            = (prepareHeaders siteRule random).lookup "User-Agent" ∧
          (prepareHeaders siteRule random').lookup "Referer"
            = (prepareHeaders siteRule random).lookup "Referer") := by
  refine ⟨?_, ?_, ?_, lookup_userAgent_prepareHeaders siteRule random,
    lookup_referer_prepareHeaders siteRule random, fun random' => ?_⟩
  · rw [lookup_prepareHeaders_base]
    rfl
  · rw [lookup_prepareHeaders_base]
    rfl
  · rw [lookup_prepareHeaders_base]
    rfl
  · rw [lookup_userAgent_prepareHeaders siteRule random',
      lookup_userAgent_prepareHeaders siteRule random,
      lookup_referer_prepareHeaders siteRule random',
      lookup_referer_prepareHeaders siteRule random]
    exact ⟨rfl, rfl⟩

theorem route_request_headers (env : Env) (sites : List (String × Rule)) (targetUrl : String)
    (hostname : String) (siteRule : Option (String × Rule)) (headers : List (String × String))
    (h : route env sites targetUrl = .request hostname siteRule headers) :
    headers = prepareHeaders (siteRule.map (·.2)) env.mathRandom := by
  unfold route at h
  split at h
  · cases h
  · cases h
  · split at h
    · cases h
    · split at h
      · split at h <;> cases h
      · split at h
        · cases h
        · injection h with h1 h2 h3
          rw [← h3, ← h2]

/-! ## The forwarded address -/

theorem randomOctet_range (r : ℚ) (h0 : 0 ≤ r) (h1 : r < 1) :
    0 ≤ randomOctet r ∧ randomOctet r ≤ 255 := by
  unfold randomOctet
  constructor
  · exact Int.floor_nonneg.mpr (by positivity)
  · have : ⌊r * 256⌋ < 256 := by
      rw [Int.floor_lt]
      push_cast
      linarith
    omega

theorem toString_int_of_nonneg (n : ℤ) (h : 0 ≤ n) : toString n = toString n.toNat := by
  obtain ⟨k, rfl⟩ := Int.eq_ofNat_of_zero_le h
  rfl

theorem lookup_forwardedFor_prepareHeaders (siteRule : Option Rule) (random : Nat → ℚ) :
    (prepareHeaders siteRule random).lookup "X-Forwarded-For" =
      (match siteRule with
       | none => none
       | some rule =>
         if rule.random_ip = true then
           some (toString (randomOctet (random 0)) ++ "." ++
             toString (randomOctet (random 1)) ++ "." ++
             toString (randomOctet (random 2)) ++ "." ++
             toString (randomOctet (random 3)))
         else none) := by
  rw [lookup_prepareHeaders_base,
    lookup_baseHeaders_none "X-Forwarded-For" (by decide) (by decide) (by decide)]
  cases siteRule with
  | none => rfl
  | some rule =>
    simp only [Option.none_or]
    rw [lookup_userAgentHeader rule "X-Forwarded-For" (by decide),
      lookup_refererHeader rule "X-Forwarded-For" (by decide)]
    unfold forwardedForHeader
    split
    · rw [lookup_cons_self]
      rfl
    · rfl

/-- C13: with draws `random 0 .. random 3` in `[0, 1)`, a resolved rule with `random_ip` set
gets the header `X-Forwarded-For` whose value is the four numbers `⌊random i * 256⌋`, each an
integer between 0 and 255 written in decimal, joined by dots; a rule without `random_ip`, or
no rule, gets no such header. -/
theorem forwarded_for_range (siteRule : Option Rule) (random : Nat → ℚ)
    (hr : ∀ i < 4, 0 ≤ random i ∧ random i < 1) :
    (∀ i < 4, 0 ≤ randomOctet (random i) ∧ randomOctet (random i) ≤ 255 ∧
      randomOctet (random i) = ⌊random i * 256⌋ ∧
      toString (randomOctet (random i)) = toString (randomOctet (random i)).toNat) ∧
    (prepareHeaders siteRule random).lookup "X-Forwarded-For" =
      (match siteRule with
       | none => none
       | some rule =>
         if rule.random_ip = true then
           some (".".intercalate
             [toString (randomOctet (random 0)).toNat, toString (randomOctet (random 1)).toNat,
              toString (randomOctet (random 2)).toNat, toString (randomOctet (random 3)).toNat])
         else none) := by
  have hrange : ∀ i < 4, 0 ≤ randomOctet (random i) ∧ randomOctet (random i) ≤ 255 :=
    fun i hi => randomOctet_range (random i) (hr i hi).1 (hr i hi).2
  have hstr : ∀ i < 4,
      toString (randomOctet (random i)) = toString (randomOctet (random i)).toNat :=
    fun i hi => toString_int_of_nonneg _ (hrange i hi).1
  refine ⟨fun i hi => ⟨(hrange i hi).1, (hrange i hi).2, rfl, hstr i hi⟩, ?_⟩
  rw [lookup_forwardedFor_prepareHeaders]
  cases siteRule with
  | none => rfl
  | some rule =>
    simp only
    rw [hstr 0 (by omega), hstr 1 (by omega), hstr 2 (by omega), hstr 3 (by omega)]
    split
    · simp [String.intercalate, String.intercalate.go, String.append_assoc]
    · rfl

/-- C13 for the rule `spoofRule` and the draws `1/3`, `0`, `255/256`, `1/2`. -/
theorem forwarded_for_range_witness :
    (∀ i < 4, 0 ≤ randomOctet (sampleDraws i) ∧ randomOctet (sampleDraws i) ≤ 255 ∧
      randomOctet (sampleDraws i) = ⌊sampleDraws i * 256⌋ ∧
      toString (randomOctet (sampleDraws i)) = toString (randomOctet (sampleDraws i)).toNat) ∧
    (prepareHeaders (some spoofRule) sampleDraws).lookup "X-Forwarded-For" =
      (match some spoofRule with
       | none => none
       | some rule =>
         if rule.random_ip = true then
           some (".".intercalate
             [toString (randomOctet (sampleDraws 0)).toNat,
              toString (randomOctet (sampleDraws 1)).toNat,
              toString (randomOctet (sampleDraws 2)).toNat,
              toString (randomOctet (sampleDraws 3)).toNat])
         else none) :=
  forwarded_for_range (some spoofRule) sampleDraws (by
    intro i hi
    interval_cases i <;> simp only [sampleDraws] <;> norm_num)

theorem randomOctet_sampleDraws :
    randomOctet (sampleDraws 0) = 85 ∧ randomOctet (sampleDraws 1) = 0 ∧
      randomOctet (sampleDraws 2) = 255 ∧ randomOctet (sampleDraws 3) = 128 := by
  refine ⟨?_, ?_, ?_, ?_⟩ <;>
    simp only [randomOctet, sampleDraws] <;> rw [Int.floor_eq_iff] <;> norm_num

/-! ## Result assembly -/

theorem utf16_dots : utf16 "..." = [46, 46, 46] := by decide

/-- C14: the returned `content` is the first `min 500 |b|` characters of the rewritten body
`b` followed by `...`, where characters are counted as `substring` and `length` count them,
in UTF-16 code units; so it has at most 503 of them, and without its last three it is a
prefix of `b`. -/
theorem content_truncated (env : Env) (sites : List (String × Rule))
    (targetUrl hostname : String) (response : OriginResponse) (r : SuccessResult)
    (hp : env.urlParseHostname targetUrl = .ok (some hostname))
    (hf : env.axiosGet targetUrl
      (prepareHeaders ((findSiteRule sites (some hostname)).1.map (·.2)) env.mathRandom)
        = .ok response)
    (hs : proxyWith env sites (.text targetUrl) = .success r) :
    r.content =
        (utf16 (scriptBlocking sites targetUrl hostname response.data).2).take
          (min 500 (utf16 (scriptBlocking sites targetUrl hostname response.data).2).length)
        ++ utf16 "..." ∧
      (utf16 "...").length = 3 ∧
      r.content.length
        = min 500 (utf16 (scriptBlocking sites targetUrl hostname response.data).2).length + 3 ∧
      r.content.length ≤ 503 ∧
      r.content.take (r.content.length - 3)
        <+: utf16 (scriptBlocking sites targetUrl hostname response.data).2 := by
  obtain ⟨resp, hresp, hr⟩ := proxyWith_success_inv env sites targetUrl hostname r hp hs
  rw [hf] at hresp
  cases hresp
  have hcontent : r.content =
      (utf16 (scriptBlocking sites targetUrl hostname response.data).2).take 500
        ++ utf16 "..." := by
    rw [hr]
    rfl
  generalize utf16 (scriptBlocking sites targetUrl hostname response.data).2 = b at hcontent ⊢
  have hdots : (utf16 "...").length = 3 := by decide
  have hlen : r.content.length = min 500 b.length + 3 := by
    rw [hcontent, List.length_append, List.length_take, hdots]
  have htake : b.take (min 500 b.length) = b.take 500 := by
    rw [List.take_eq_take]
    simp
  refine ⟨by rw [htake]; exact hcontent, hdots, hlen, by omega, ?_⟩
  rw [hlen, hcontent, Nat.add_sub_cancel]
  have h1 : (b.take 500 ++ utf16 "...").take (min 500 b.length) = b.take 500 := by
    have : (b.take 500).length = min 500 b.length := List.length_take 500 b
    rw [← this, List.take_left']
    rfl
  rw [h1]
  exact List.take_prefix 500 b

/-- C14 at `https://example.com/page` on the sample platform with the body `emojiBody` of 601
code units: the content has 503 units, and the cut at 500 falls inside a surrogate pair, so
that unit 499 of the content is the high surrogate `0xD83D` and the marker follows it. -/
theorem content_truncated_witness :
    (utf16 emojiBody).length = 601 ∧
      (rewrite defaultSites "https://example.com/page" "example.com" none
        ⟨[], none, emojiBody⟩).content.length = 503 ∧
      (rewrite defaultSites "https://example.com/page" "example.com" none
        ⟨[], none, emojiBody⟩).content.drop 498 = [56832, 55357, 46, 46, 46] ∧
      ((rewrite defaultSites "https://example.com/page" "example.com" none
          ⟨[], none, emojiBody⟩).content =
        (utf16 (scriptBlocking defaultSites "https://example.com/page" "example.com"
            emojiBody).2).take
          (min 500 (utf16 (scriptBlocking defaultSites "https://example.com/page" "example.com"
            emojiBody).2).length)
        ++ utf16 "..." ∧
      (utf16 "...").length = 3 ∧
      (rewrite defaultSites "https://example.com/page" "example.com" none
        ⟨[], none, emojiBody⟩).content.length
        = min 500 (utf16 (scriptBlocking defaultSites "https://example.com/page" "example.com"
            emojiBody).2).length + 3 ∧
      (rewrite defaultSites "https://example.com/page" "example.com" none
        ⟨[], none, emojiBody⟩).content.length ≤ 503 ∧
      (rewrite defaultSites "https://example.com/page" "example.com" none
          ⟨[], none, emojiBody⟩).content.take
          ((rewrite defaultSites "https://example.com/page" "example.com" none
            ⟨[], none, emojiBody⟩).content.length - 3)
        <+: utf16 (scriptBlocking defaultSites "https://example.com/page" "example.com"
            emojiBody).2) :=
  ⟨by decide!, by decide!, by decide!,
    content_truncated (samplePlatform ⟨[], none, emojiBody⟩) defaultSites
      "https://example.com/page" "example.com" ⟨[], none, emojiBody⟩ _ rfl rfl rfl⟩

/-- The truncation on a body of 300 characters that take two code units each: the content
keeps 250 of them, 500 units, and the marker, 503 units in all. -/
theorem content_of_emojiRun :
    (rewrite defaultSites "https://example.com/page" "example.com" none
        ⟨[], none, emojiRun⟩).content
      = utf16 (String.mk (List.replicate 250 (Char.ofNat 128512))) ++ utf16 "..." ∧
    (rewrite defaultSites "https://example.com/page" "example.com" none
        ⟨[], none, emojiRun⟩).content.length = 503 := by
  decide!

theorem lookup_setKey_self {α : Type} (key : String) (value : α) (l : List (String × α)) :
    (setKey key value l).lookup key = some value := by
  induction l with
  | nil => simp [setKey, List.lookup]
  | cons x l ih =>
    obtain ⟨k, v⟩ := x
    by_cases hk : k = key
    · subst hk
      simp [setKey, List.lookup]
    · have hne : key ≠ k := fun e => hk e.symm
      simp only [setKey, if_neg hk]
      rw [lookup_cons_ne key k v _ hne, ih]

theorem lookup_setKey_ne {α : Type} (key other : String) (value : α) (l : List (String × α))
    (h : other ≠ key) : (setKey key value l).lookup other = l.lookup other := by
  induction l with
  | nil =>
    simp only [setKey]
    rw [lookup_cons_ne other key value _ h]
  | cons x l ih =>
    obtain ⟨k, v⟩ := x
    by_cases hk : k = key
    · subst hk
      simp only [setKey, if_true]
      rw [lookup_cons_ne other k value _ h, lookup_cons_ne other k v _ h]
    · simp only [setKey, if_neg hk]
      by_cases ho : other = k
      · subst ho
        rw [lookup_cons_self, lookup_cons_self]
      · rw [lookup_cons_ne other k v _ ho, lookup_cons_ne other k v _ ho, ih]

/-- C15: for the hostname `nytimes.com` the returned headers have `x-frame-options` equal to
`SAMEORIGIN`, whatever the origin sent for it or whether it sent it, and every other header,
the `set-cookie` entries included, is as the origin sent it; for any other hostname the
returned headers are the origin headers. -/
theorem frame_options_override (env : Env) (sites : List (String × Rule))
    (targetUrl hostname : String) (response : OriginResponse) (r : SuccessResult)
    (hp : env.urlParseHostname targetUrl = .ok (some hostname))
    (hf : env.axiosGet targetUrl
      (prepareHeaders ((findSiteRule sites (some hostname)).1.map (·.2)) env.mathRandom)
        = .ok response)
    (hs : proxyWith env sites (.text targetUrl) = .success r) :
    (hostname = "nytimes.com" →
      r.headers.lookup "x-frame-options" = some "SAMEORIGIN" ∧
      ∀ key, key ≠ "x-frame-options" → r.headers.lookup key = response.headers.lookup key) ∧
    (hostname ≠ "nytimes.com" → r.headers = response.headers) ∧
    r.setCookie = response.setCookie := by
  obtain ⟨resp, hresp, hr⟩ := proxyWith_success_inv env sites targetUrl hostname r hp hs
  rw [hf] at hresp
  cases hresp
  have hh : r.headers = overrideFrameOptions hostname response.headers := by
    rw [hr]
    rfl
  have hc : r.setCookie = response.setCookie := by
    rw [hr]
    rfl
  refine ⟨fun hny => ?_, fun hne => ?_, hc⟩
  · rw [hh, overrideFrameOptions, if_pos hny]
    exact ⟨lookup_setKey_self _ _ _, fun key hkey => lookup_setKey_ne _ key _ _ hkey⟩
  · rw [hh, overrideFrameOptions, if_neg hne]

/-- C15 at `https://nytimes.com/y` on the sample platform, the origin sending
`x-frame-options: DENY` and a content type. -/
theorem frame_options_override_witness :
    ("nytimes.com" = "nytimes.com" →
      (rewrite defaultSites "https://nytimes.com/y" "nytimes.com"
        (findSiteRule defaultSites (some "nytimes.com")).1
        ⟨[("x-frame-options", "DENY"), ("content-type", "text/html")], none, "body"⟩).headers.lookup
          "x-frame-options" = some "SAMEORIGIN" ∧
      ∀ key, key ≠ "x-frame-options" →
        (rewrite defaultSites "https://nytimes.com/y" "nytimes.com"
          (findSiteRule defaultSites (some "nytimes.com")).1
          ⟨[("x-frame-options", "DENY"), ("content-type", "text/html")], none,
            "body"⟩).headers.lookup key
          = (⟨[("x-frame-options", "DENY"), ("content-type", "text/html")], none, "body"⟩ :
            OriginResponse).headers.lookup key) ∧
    ("nytimes.com" ≠ "nytimes.com" →
      (rewrite defaultSites "https://nytimes.com/y" "nytimes.com"
        (findSiteRule defaultSites (some "nytimes.com")).1
        ⟨[("x-frame-options", "DENY"), ("content-type", "text/html")], none, "body"⟩).headers
        = (⟨[("x-frame-options", "DENY"), ("content-type", "text/html")], none, "body"⟩ :
            OriginResponse).headers) ∧
    (rewrite defaultSites "https://nytimes.com/y" "nytimes.com"
        (findSiteRule defaultSites (some "nytimes.com")).1
        ⟨[("x-frame-options", "DENY"), ("content-type", "text/html")], none, "body"⟩).setCookie
      = (⟨[("x-frame-options", "DENY"), ("content-type", "text/html")], none, "body"⟩ :
            OriginResponse).setCookie :=
  frame_options_override
    (samplePlatform ⟨[("x-frame-options", "DENY"), ("content-type", "text/html")], none, "body"⟩)
    defaultSites "https://nytimes.com/y" "nytimes.com"
    ⟨[("x-frame-options", "DENY"), ("content-type", "text/html")], none, "body"⟩ _ rfl rfl
    (by decide)

/-! ## Input validation -/

theorem proxyWith_null_hostname (env : Env) (sites : List (String × Rule)) (targetUrl : String)
    (hne : targetUrl ≠ "") (hp : env.urlParseHostname targetUrl = .ok none) :
    proxyWith env sites (.text targetUrl)
      = .serverError ("Proxy error: " ++ nullIncludesMessage) := by
  rw [proxyWith_text env sites targetUrl hne]
  unfold route
  rw [hp]

/-- C16 at the failing input `not a url`: no hostname is parsed from it, and the handler
answers with the 500 response that carries the message of the `TypeError` thrown by
`hostname.includes`, not with a validation error; a missing or empty `url` does get the 400
response `URL is required`. -/
theorem malformed_url_is_server_error :
    sampleHostname "not a url" = .ok none ∧
      proxy (samplePlatform ⟨[], none, "body"⟩) (.text "not a url")
        = .serverError "Proxy error: Cannot read properties of null (reading \x27includes\x27)" ∧
      proxy (samplePlatform ⟨[], none, "body"⟩) .missing = .badRequest "URL is required" ∧
      proxy (samplePlatform ⟨[], none, "body"⟩) (.text "") = .badRequest "URL is required" :=
  ⟨rfl, by decide, by decide, by decide⟩

/-! ## Block records -/

theorem fireCount_eq_countP (sites : List (String × Rule)) (targetUrl hostname : String) :
    fireCount sites targetUrl hostname =
      sites.countP (fun e => regexFires e.2 targetUrl)
        + sites.countP (fun e => generalFires e.2 targetUrl hostname) := by
  unfold fireCount
  induction sites with
  | nil => rfl
  | cons e sites ih =>
    rw [List.map_cons, List.sum_cons, ih, List.countP_cons, List.countP_cons]
    cases regexFires e.2 targetUrl <;> cases generalFires e.2 targetUrl hostname <;>
      simp <;> omega

/-- C17: `blockedScripts` has one entry for every rule whose `block_regex` matches the URL
and one for every rule whose `block_regex_general` matches it and whose `excluded_domains`
does not list the hostname; every entry is the target URL; the body has gone through the
script replacement once per entry, so `blockedScripts` is empty exactly when the body was not
stripped at all. -/
theorem block_records (env : Env) (sites : List (String × Rule))
    (targetUrl hostname : String) (response : OriginResponse) (r : SuccessResult)
    (hp : env.urlParseHostname targetUrl = .ok (some hostname))
    (hf : env.axiosGet targetUrl
      (prepareHeaders ((findSiteRule sites (some hostname)).1.map (·.2)) env.mathRandom)
        = .ok response)
    (hs : proxyWith env sites (.text targetUrl) = .success r) :
    r.blockedScripts.length =
        sites.countP (fun e => regexFires e.2 targetUrl)
          + sites.countP (fun e => generalFires e.2 targetUrl hostname) ∧
      (∀ entry ∈ r.blockedScripts, entry = targetUrl) ∧
      (scriptBlocking sites targetUrl hostname response.data).2
        = stripScripts^[r.blockedScripts.length] response.data ∧
      (r.blockedScripts = [] →
        (scriptBlocking sites targetUrl hostname response.data).2 = response.data) ∧
      (r.blockedScripts ≠ [] → ∃ n,
        (scriptBlocking sites targetUrl hostname response.data).2
          = stripScripts^[n] (stripScripts response.data)) := by
  obtain ⟨resp, hresp, hr⟩ := proxyWith_success_inv env sites targetUrl hostname r hp hs
  rw [hf] at hresp
  cases hresp
  have hblocked : r.blockedScripts =
      List.replicate (fireCount sites targetUrl hostname) targetUrl := by
    rw [hr]
    show (scriptBlocking sites targetUrl hostname response.data).1 = _
    rw [scriptBlocking_eq]
  have hbody : (scriptBlocking sites targetUrl hostname response.data).2
      = stripScripts^[fireCount sites targetUrl hostname] response.data := by
    rw [scriptBlocking_eq]
  have hlen : r.blockedScripts.length = fireCount sites targetUrl hostname := by
    rw [hblocked, List.length_replicate]
  refine ⟨?_, ?_, ?_, ?_, ?_⟩
  · rw [hlen, fireCount_eq_countP]
  · intro entry hmem
    rw [hblocked] at hmem
    exact List.eq_of_mem_replicate hmem
  · rw [hlen, hbody]
  · intro hnil
    rw [hnil] at hlen
    rw [hbody, ← hlen]
    rfl
  · intro hne
    cases hn : fireCount sites targetUrl hostname with
    | zero =>
      rw [hn] at hblocked
      exact absurd hblocked hne
    | succ n =>
      refine ⟨n, ?_⟩
      rw [hbody, hn, Function.iterate_succ_apply]

/-- C17 on the sample platform with the shipped table, at a URL that fires the patterns of
`Bloomberg` and of `Poool.fr`. -/
theorem block_records_witness :
    (rewrite defaultSites "https://x.cm.bloomberg.com/a.poool.fr/" "x.cm.bloomberg.com" none
        ⟨[], none, "a<script>1</script>b"⟩).blockedScripts.length =
        defaultSites.countP (fun e => regexFires e.2 "https://x.cm.bloomberg.com/a.poool.fr/")
          + defaultSites.countP (fun e =>
              generalFires e.2 "https://x.cm.bloomberg.com/a.poool.fr/" "x.cm.bloomberg.com") ∧
      (∀ entry ∈ (rewrite defaultSites "https://x.cm.bloomberg.com/a.poool.fr/"
          "x.cm.bloomberg.com" none ⟨[], none, "a<script>1</script>b"⟩).blockedScripts,
        entry = "https://x.cm.bloomberg.com/a.poool.fr/") ∧
      (scriptBlocking defaultSites "https://x.cm.bloomberg.com/a.poool.fr/" "x.cm.bloomberg.com"
          (⟨[], none, "a<script>1</script>b"⟩ : OriginResponse).data).2
        = stripScripts^[(rewrite defaultSites "https://x.cm.bloomberg.com/a.poool.fr/"
            "x.cm.bloomberg.com" none ⟨[], none, "a<script>1</script>b"⟩).blockedScripts.length]
          (⟨[], none, "a<script>1</script>b"⟩ : OriginResponse).data ∧
      ((rewrite defaultSites "https://x.cm.bloomberg.com/a.poool.fr/" "x.cm.bloomberg.com" none
          ⟨[], none, "a<script>1</script>b"⟩).blockedScripts = [] →
        (scriptBlocking defaultSites "https://x.cm.bloomberg.com/a.poool.fr/" "x.cm.bloomberg.com"
          (⟨[], none, "a<script>1</script>b"⟩ : OriginResponse).data).2
          = (⟨[], none, "a<script>1</script>b"⟩ : OriginResponse).data) ∧
      ((rewrite defaultSites "https://x.cm.bloomberg.com/a.poool.fr/" "x.cm.bloomberg.com" none
          ⟨[], none, "a<script>1</script>b"⟩).blockedScripts ≠ [] → ∃ n,
        (scriptBlocking defaultSites "https://x.cm.bloomberg.com/a.poool.fr/" "x.cm.bloomberg.com"
          (⟨[], none, "a<script>1</script>b"⟩ : OriginResponse).data).2
          = stripScripts^[n]
            (stripScripts (⟨[], none, "a<script>1</script>b"⟩ : OriginResponse).data)) :=
  block_records (samplePlatform ⟨[], none, "a<script>1</script>b"⟩) defaultSites
    "https://x.cm.bloomberg.com/a.poool.fr/" "x.cm.bloomberg.com"
    ⟨[], none, "a<script>1</script>b"⟩ _ rfl rfl (by decide)

/-! ## The lookup loop against the specified resolver -/

theorem findSiteRule_none (sites : List (String × Rule)) :
    findSiteRule sites none = (none, false) ∧ resolveTwoPass sites none = (none, false) := by
  constructor
  · induction sites with
    | nil => rfl
    | cons e sites ih =>
      have hg : groupIncludes e.2.group none = false := by
        cases e.2.group <;> rfl
      simp [findSiteRule, hg, ih]
  · have h1 : sites.find? (fun e => decide (some e.2.domain = (none : Option String))) = none := by
      rw [List.find?_eq_none]
      intro e _
      simp
    have h2 : sites.find? (fun e => groupIncludes e.2.group none) = none := by
      rw [List.find?_eq_none]
      intro e _
      cases e.2.group <;> simp [groupIncludes]
    unfold resolveTwoPass
    rw [h1, h2]

theorem findSiteRule_eq_resolveTwoPass (sites : List (String × Rule))
    (hsep : ∀ e1 ∈ sites, ∀ e2 ∈ sites, groupIncludes e1.2.group (some e2.2.domain) = false)
    (hostname : Option String) :
    findSiteRule sites hostname = resolveTwoPass sites hostname := by
  cases hostname with
  | none => rw [(findSiteRule_none sites).1, (findSiteRule_none sites).2]
  | some h =>
    induction sites with
    | nil => rfl
    | cons e sites ih =>
      have hrest : ∀ e1 ∈ sites, ∀ e2 ∈ sites,
          groupIncludes e1.2.group (some e2.2.domain) = false :=
        fun e1 h1 e2 h2 => hsep e1 (List.mem_cons_of_mem _ h1) e2 (List.mem_cons_of_mem _ h2)
      have ih' := ih hrest
      by_cases hd : some e.2.domain = some h
      · have e1 : findSiteRule (e :: sites) (some h) = (some e, false) := by
          simp [findSiteRule, hd]
        have e2 : resolveTwoPass (e :: sites) (some h) = (some e, false) := by
          unfold resolveTwoPass
          rw [List.find?_cons_of_pos _ (by simpa using hd)]
        rw [e1, e2]
      · by_cases hg : groupIncludes e.2.group (some h) = true
        · have hnodom : (e :: sites).find? (fun x => decide (some x.2.domain = some h)) = none := by
            rw [List.find?_eq_none]
            intro x hx
            simp only [decide_eq_true_eq]
            intro hxd
            have hxd' : x.2.domain = h := Option.some.inj hxd
            have := hsep e (List.mem_cons_self _ _) x hx
            rw [hxd', hg] at this
            cases this
          unfold resolveTwoPass
          rw [hnodom]
          simp [findSiteRule, hd, hg]
        · have hg' : groupIncludes e.2.group (some h) = false := by
            simpa using hg
          have e1 : findSiteRule (e :: sites) (some h) = findSiteRule sites (some h) := by
            simp [findSiteRule, hd, hg']
          have e2 : resolveTwoPass (e :: sites) (some h) = resolveTwoPass sites (some h) := by
            unfold resolveTwoPass
            rw [List.find?_cons_of_neg _ (by simpa using hd),
              List.find?_cons_of_neg _ (by simpa using hg)]
          rw [e1, e2, ih']

/-- C18: on the shipped table the lookup loop of the handler returns, for every hostname
(and for a `null` hostname), the rule and the `isGroupSite` flag that the two-pass resolver of
the specification returns; in that table the domains are pairwise distinct and no group
member is the domain of a rule. -/
theorem lookup_refines_resolver (hostname : Option String) :
    findSiteRule defaultSites hostname = resolveTwoPass defaultSites hostname ∧
      (defaultSites.map (·.2.domain)).Nodup ∧
      (∀ e1 ∈ defaultSites, ∀ e2 ∈ defaultSites,
        groupIncludes e1.2.group (some e2.2.domain) = false) :=
  ⟨findSiteRule_eq_resolveTwoPass defaultSites (by decide) hostname, by decide, by decide⟩

/-! ## AMP detection -/

theorem mem_of_isPrefixB (t s : List Char) (h : isPrefixB t s = true) : ∀ c ∈ t, c ∈ s := by
  induction t generalizing s with
  | nil => intro c hc; cases hc
  | cons a t ih =>
    cases s with
    | nil => simp [isPrefixB] at h
    | cons b s =>
      simp only [isPrefixB, Bool.and_eq_true, beq_iff_eq] at h
      intro c hc
      rcases List.mem_cons.mp hc with rfl | hc'
      · rw [h.1]
        exact List.mem_cons_self _ _
      · exact List.mem_cons_of_mem _ (ih s h.2 c hc')

theorem includesL_false_of_foreign (s t : List Char) (c : Char) (hct : c ∈ t) (hcs : c ∉ s) :
    includesL s t = false := by
  induction s with
  | nil =>
    cases t with
    | nil => cases hct
    | cons a t => rfl
  | cons b s ih =>
    have hs : c ∉ s := fun e => hcs (List.mem_cons_of_mem _ e)
    have hpre : isPrefixB t (b :: s) = false := by
      cases hp : isPrefixB t (b :: s) with
      | false => rfl
      | true => exact absurd (mem_of_isPrefixB t (b :: s) hp c hct) hcs
    show (isPrefixB t (b :: s) || includesL s t) = false
    rw [hpre, ih hs]
    rfl

/-- C19: for a parsed hostname without `/`, the test `hostname.includes("google.com/amp")` is
false, so the AMP branch is taken exactly when the hostname contains `cdn.ampproject.org`:
then the handler answers with the decoded redirect (or the 500 response when decoding
throws); otherwise the handler goes on, and unless the hostname is a no-fix host or the
sign-in case of `inkl.com` applies it reaches the fetch with the prepared headers. -/
theorem amp_detection (env : Env) (sites : List (String × Rule)) (targetUrl hostname : String)
    (hne : targetUrl ≠ "")
    (hp : env.urlParseHostname targetUrl = .ok (some hostname))
    (hslash : '/' ∉ hostname.data) :
    includes hostname "google.com/amp" = false ∧
      (includes hostname "cdn.ampproject.org" || includes hostname "google.com/amp")
        = includes hostname "cdn.ampproject.org" ∧
      (includes hostname "cdn.ampproject.org" = true →
        route env sites targetUrl =
          match decodeURIComponent (ampEmbedded targetUrl) with
          | some decodedUrl => .respond (.redirect decodedUrl)
          | none => .respond (.serverError "Proxy error: URI malformed")) ∧
      (includes hostname "cdn.ampproject.org" = false → hostname ∉ nofix_sites →
        ¬ (hostname = "inkl.com" ∧ includes targetUrl "sign-in" = true) →
        route env sites targetUrl =
          .request hostname (findSiteRule sites (some hostname)).1
            (prepareHeaders ((findSiteRule sites (some hostname)).1.map (·.2))
              env.mathRandom) ∧
        proxyWith env sites (.text targetUrl) =
          match env.axiosGet targetUrl
            (prepareHeaders ((findSiteRule sites (some hostname)).1.map (·.2))
              env.mathRandom) with
          | .error message => .serverError ("Proxy error: " ++ message)
          | .ok response =>
            .success (rewrite sites targetUrl hostname (findSiteRule sites (some hostname)).1
              response)) := by
  have hg : includes hostname "google.com/amp" = false :=
    includesL_false_of_foreign hostname.data "google.com/amp".data '/' (by decide) hslash
  have hr := route_of_hostname env sites targetUrl hostname hp
  refine ⟨hg, by rw [hg, Bool.or_false], fun hamp => ?_, fun hamp hnofix hinkl => ?_⟩
  · have hcond : (includes hostname "cdn.ampproject.org" || includes hostname "google.com/amp")
        = true := by rw [hamp]; rfl
    rw [hr, if_neg (not_nofix_of_amp hostname hcond), if_pos hcond]
  · have hcond : ¬ ((includes hostname "cdn.ampproject.org"
        || includes hostname "google.com/amp") = true) := by
      rw [hamp, hg]
      decide
    have hroute : route env sites targetUrl =
        .request hostname (findSiteRule sites (some hostname)).1
          (prepareHeaders ((findSiteRule sites (some hostname)).1.map (·.2))
            env.mathRandom) := by
      rw [hr, if_neg hnofix, if_neg hcond, if_neg hinkl]
    refine ⟨hroute, ?_⟩
    rw [proxyWith_text env sites targetUrl hne, hroute]

/-- C19 at the AMP viewer URL `https://www.google.com/amp/s/example.com/a` on the sample
platform: the hostname is `www.google.com`, the AMP branch is not taken and the handler
fetches the URL with the base headers. -/
theorem amp_detection_witness :
    includes "www.google.com" "cdn.ampproject.org" = false ∧
      route (samplePlatform ⟨[], none, "body"⟩) defaultSites
          "https://www.google.com/amp/s/example.com/a"
        = .request "www.google.com" none baseHeaders ∧
      (proxy (samplePlatform ⟨[], none, "body"⟩)
        (.text "https://www.google.com/amp/s/example.com/a")).result?.map (·.url)
        = some "https://www.google.com/amp/s/example.com/a" :=
  ⟨by decide,
    ((amp_detection (samplePlatform ⟨[], none, "body"⟩) defaultSites
      "https://www.google.com/amp/s/example.com/a" "www.google.com" (by decide) rfl
      (by decide)).2.2.2 (by decide) (by decide) (by decide)).1,
    by decide⟩

/-! ## Exclusion lists -/

/-- C11, as stated, fails: `perthnow.com.au` is in `custom_flex_not_domains`, the URL
`https://perthnow.com.au/a.poool.fr/x` matches the `block_regex_general` of `Poool.fr`, and
the handler records the URL and strips the script from the body. -/
theorem flattened_exclusions_not_consulted :
    "perthnow.com.au" ∈ custom_flex_not_domains ∧
      (∃ e ∈ defaultSites, ∃ regex, e.2.block_regex_general = some regex ∧
        regex.test "https://perthnow.com.au/a.poool.fr/x" = true) ∧
      (proxy (samplePlatform ⟨[], none, "a<script>1</script>b"⟩)
        (.text "https://perthnow.com.au/a.poool.fr/x")).result?.map (·.blockedScripts)
          = some ["https://perthnow.com.au/a.poool.fr/x"] ∧
      (proxy (samplePlatform ⟨[], none, "a<script>1</script>b"⟩)
        (.text "https://perthnow.com.au/a.poool.fr/x")).result?.map (·.content)
          = some (utf16 "ab...") := by
  decide

/-- C11, amended: for a rule whose own `excluded_domains` lists the hostname, a match of that
rule's `block_regex_general` neither strips the body nor adds a block record, while a match of
its `block_regex` strips the body once and adds one record: the round of the loop for this
rule leaves the state alone when `block_regex` does not match and appends the URL and strips
when it does. -/
theorem exclusion_carve_out (targetUrl hostname : String) (state : List String × String)
    (rule : Rule) (domains : List String)
    (hex : rule.excluded_domains = some domains) (hmem : hostname ∈ domains) :
    generalFires rule targetUrl hostname = false ∧
      (regexFires rule targetUrl = false →
        blockStep targetUrl hostname state rule = state) ∧
      (regexFires rule targetUrl = true →
        blockStep targetUrl hostname state rule
          = (state.1 ++ [targetUrl], stripScripts state.2)) := by
  have hne : notExcluded rule hostname = false := by
    simp [notExcluded, hex, hmem]
  have hg : generalFires rule targetUrl hostname = false := by
    unfold generalFires
    cases rule.block_regex_general with
    | none => rfl
    | some regex => simp [hne]
  refine ⟨hg, fun hr => ?_, fun hr => ?_⟩
  · rw [blockStep_eq, hr, hg]
    simp
  · rw [blockStep_eq, hr, hg]
    simp [List.replicate_succ]

/-- C11, amended, for the rule `carveOutRule`, which excludes `perthnow.com.au`, at a URL
that matches both of its patterns. -/
theorem exclusion_carve_out_witness :
    generalFires carveOutRule "https://perthnow.com.au/paywall/meter.js" "perthnow.com.au"
        = false ∧
      (regexFires carveOutRule "https://perthnow.com.au/paywall/meter.js" = false →
        blockStep "https://perthnow.com.au/paywall/meter.js" "perthnow.com.au"
          ([], "a<script>1</script>b") carveOutRule = ([], "a<script>1</script>b")) ∧
      (regexFires carveOutRule "https://perthnow.com.au/paywall/meter.js" = true →
        blockStep "https://perthnow.com.au/paywall/meter.js" "perthnow.com.au"
          ([], "a<script>1</script>b") carveOutRule
          = (([] : List String) ++ ["https://perthnow.com.au/paywall/meter.js"],
            stripScripts "a<script>1</script>b")) :=
  exclusion_carve_out "https://perthnow.com.au/paywall/meter.js" "perthnow.com.au"
    ([], "a<script>1</script>b") carveOutRule ["perthnow.com.au"] rfl (by decide)
end WebProxy
